import Mathlib

/-!
# vhost-user control-plane server (`src/lib/vhost_user/vhost_server.c`)

A shallow embedding of the message handlers of the vhost-user server and of
its guest-memory region table.

Conventions of the embedding

* C unsigned integers are natural numbers; every C operation that can leave
  the range of its type is followed by an explicit reduction modulo `2 ^ w`.
* C `int` / `int64_t` values are integers; a conversion from an unsigned
  value is the two's complement reading (`toInt32`, `toInt64`).
* C arrays are lists.  An access outside of the list is undefined behaviour
  and is reported as such (`Outcome.undefined`, or `none` for a pure read).
* A failing `assert` stops the handler; the outcome `Outcome.aborted` carries
  the server and the message as they are at the failing assertion.
* The `fprintf` calls (logging) and the transport handle `server` of
  `VhostServer` play no part in the handlers and are left out.
-/

namespace VhostUser

/-! ## Constants and types of `vhost_user.h` -/

/-- Modelled from the spec: `vhost_user.h` is not among the sources; the spec
gives the capacity of the region table as "a fixed small bound, e.g. 8". -/
def VHOST_MEMORY_MAX_NREGIONS : Nat := 8

/-- Modelled from the spec: the request kinds of `vhost_user.h`, numbered in
the order of the initialiser of `msg_handlers` (kinds 1..14 are meaningful,
0 and 15 are reserved). -/
def VHOST_USER_NONE : Nat := 0
/-- Request kind 1 (position of `_get_features` in `msg_handlers`). -/
def VHOST_USER_GET_FEATURES : Nat := 1
/-- Request kind 2. -/
def VHOST_USER_SET_FEATURES : Nat := 2
/-- Request kind 3. -/
def VHOST_USER_SET_OWNER : Nat := 3
/-- Request kind 4. -/
def VHOST_USER_RESET_OWNER : Nat := 4
/-- Request kind 5. -/
def VHOST_USER_SET_MEM_TABLE : Nat := 5
/-- Request kind 6. -/
def VHOST_USER_SET_LOG_BASE : Nat := 6
/-- Request kind 7. -/
def VHOST_USER_SET_LOG_FD : Nat := 7
/-- Request kind 8. -/
def VHOST_USER_SET_VRING_NUM : Nat := 8
/-- Request kind 9. -/
def VHOST_USER_SET_VRING_ADDR : Nat := 9
/-- Request kind 10. -/
def VHOST_USER_SET_VRING_BASE : Nat := 10
/-- Request kind 11. -/
def VHOST_USER_GET_VRING_BASE : Nat := 11
/-- Request kind 12. -/
def VHOST_USER_SET_VRING_KICK : Nat := 12
/-- Request kind 13. -/
def VHOST_USER_SET_VRING_CALL : Nat := 13
/-- Request kind 14. -/
def VHOST_USER_SET_VRING_ERR : Nat := 14
/-- Request kind 15, the "set network backend" placeholder. -/
def VHOST_USER_NET_SET_BACKEND : Nat := 15
/-- Modelled from the spec: the number of enumerated request kinds (0..15),
the length of `msg_handlers`. -/
def VHOST_USER_MAX : Nat := 16

/-- Modelled from the spec: one entry of the region list of a SET_MEM_TABLE
payload, "a fixed-size {guestPhysicalAddress, size, guestVirtualAddress}
triple" of 64-bit values (the fields `_set_mem_table` reads). -/
structure VhostUserMemoryRegion where
  guest_phys_addr : Nat
  memory_size : Nat
  userspace_addr : Nat
  deriving DecidableEq, Repr

/-- Modelled from the spec: the SET_MEM_TABLE payload, a declared count
(`uint32_t`) and an array of `VHOST_MEMORY_MAX_NREGIONS` entries. -/
structure VhostUserMemory where
  nregions : Nat
  regions : List VhostUserMemoryRegion
  deriving DecidableEq, Repr

/-- Modelled from the spec: the "queue-index + 32-bit value pair" payload. -/
structure vhost_vring_state where
  index : Nat
  num : Nat
  deriving DecidableEq, Repr

/-- Modelled from the spec: the "queue-index + 64-bit value triple for ring
addresses" payload. -/
structure vhost_vring_addr where
  index : Nat
  desc_user_addr : Nat
  used_user_addr : Nat
  avail_user_addr : Nat
  deriving DecidableEq, Repr

/-- Modelled from the spec: the queue-index payload of the kick / call
messages. -/
structure vhost_vring_file where
  index : Nat
  deriving DecidableEq, Repr

/-- Modelled from the spec: the message envelope of `vhost_user.h`, a request
kind and the payload views the handlers access (`u64`, `state`, `addr`,
`file`, `memory`).  Each view is kept as a field of its own. -/
structure VhostUserMsg where
  request : Nat
  u64 : Nat
  state : vhost_vring_state
  addr : vhost_vring_addr
  file : vhost_vring_file
  memory : VhostUserMemory
  deriving DecidableEq, Repr

/-! ## Types of `server.h` and `vhost_server.h` -/

/-- The `struct ServerMsg` of `server.h`: the message, the number of attached
descriptors and the descriptor array. -/
structure ServerMsg where
  msg : VhostUserMsg
  fd_num : Nat
  fds : List Int
  deriving DecidableEq, Repr

/-- The `VhostServerMemoryRegion` of `vhost_server.h` (four `uint64_t`). -/
structure VhostServerMemoryRegion where
  guest_phys_addr : Nat
  memory_size : Nat
  userspace_addr : Nat
  mmap_addr : Nat
  deriving DecidableEq, Repr

/-- The `VhostServerMemory` of `vhost_server.h`: the region count
(`uint32_t`) and the array of `VHOST_MEMORY_MAX_NREGIONS` regions. -/
structure VhostServerMemory where
  nregions : Nat
  regions : List VhostServerMemoryRegion
  deriving DecidableEq, Repr

/-- The `VhostServer` of `vhost_server.h`: the region table and the two
`unsigned int` ring bases. -/
structure VhostServer where
  memory : VhostServerMemory
  vring_base : List Nat
  deriving DecidableEq, Repr

/-- The shape the C types give a server: `regions` has
`VHOST_MEMORY_MAX_NREGIONS` slots and `vring_base` has two. -/
def VhostServer.Shaped (s : VhostServer) : Prop :=
  s.memory.regions.length = VHOST_MEMORY_MAX_NREGIONS ∧ s.vring_base.length = 2

instance (s : VhostServer) : Decidable s.Shaped := by
  unfold VhostServer.Shaped; exact inferInstance

/-- The shape the C types give a message: `fds` and `memory.regions` have
`VHOST_MEMORY_MAX_NREGIONS` slots. -/
def ServerMsg.Shaped (m : ServerMsg) : Prop :=
  m.fds.length = VHOST_MEMORY_MAX_NREGIONS ∧
    m.msg.memory.regions.length = VHOST_MEMORY_MAX_NREGIONS

instance (m : ServerMsg) : Decidable m.Shaped := by
  unfold ServerMsg.Shaped; exact inferInstance

/-! ## Machine arithmetic -/

/-- The value of a 32-bit pattern read as a C `int`. -/
def toInt32 (x : Nat) : Int :=
  if x % 2 ^ 32 < 2 ^ 31 then (x % 2 ^ 32 : Nat) else (x % 2 ^ 32 : Nat) - 2 ^ 32

/-- The value of a 64-bit pattern read as an `int64_t`. -/
def toInt64 (x : Nat) : Int :=
  if x % 2 ^ 64 < 2 ^ 63 then (x % 2 ^ 64 : Nat) else (x % 2 ^ 64 : Nat) - 2 ^ 64

/-- Addition of two `uint64_t` values. -/
def u64add (a b : Nat) : Nat := (a + b) % 2 ^ 64

/-- Subtraction of two `uint64_t` values. -/
def u64sub (a b : Nat) : Nat := (a + (2 ^ 64 - b % 2 ^ 64)) % 2 ^ 64

/-! ## Outcomes -/

/-- What a handler call ends in: it returns (the `int` result says whether a
reply is owed), an `assert` fails, or it accesses an array out of bounds. -/
inductive Outcome where
  | returned (server : VhostServer) (msg : ServerMsg) (result : Int)
  | aborted (server : VhostServer) (msg : ServerMsg)
  | undefined
  deriving DecidableEq, Repr

/-! ## `_map_user_addr` -/

/-- The test of the `if` in the loop of `_map_user_addr`. -/
def regionHit (region : VhostServerMemoryRegion) (addr : Nat) : Prop :=
  region.userspace_addr ≤ addr ∧
    addr < u64add region.userspace_addr region.memory_size

instance (region : VhostServerMemoryRegion) (addr : Nat) :
    Decidable (regionHit region addr) := by
  unfold regionHit; exact inferInstance

/-- The value assigned to `result` on a hit. -/
def regionMap (region : VhostServerMemoryRegion) (addr : Nat) : Nat :=
  u64sub (u64add region.mmap_addr addr) region.userspace_addr

/-- The `for` loop of `_map_user_addr`, started at `idx` with `remaining`
iterations to go; `none` is a read outside of `regions`. -/
def _map_user_addr_loop (vhost_server : VhostServer) (addr : Nat) :
    Nat → Nat → Option Nat
  | 0, _ => some 0
  | remaining + 1, idx =>
    match vhost_server.memory.regions[idx]? with
    | none => none
    | some region =>
      if regionHit region addr then some (regionMap region addr)
      else _map_user_addr_loop vhost_server addr remaining (idx + 1)

/-- The function `_map_user_addr`: the `uint64_t result` is returned as an
`int64_t`. -/
def _map_user_addr (vhost_server : VhostServer) (addr : Nat) : Option Int :=
  (_map_user_addr_loop vhost_server addr vhost_server.memory.nregions 0).map toInt64

/-! ## The handlers -/

/-- The handler `_get_features`. -/
def _get_features (vhost_server : VhostServer) (msg : ServerMsg) : Outcome :=
  .returned vhost_server { msg with msg := { msg.msg with u64 := 0 } } 1

/-- The handler `_set_features`. -/
def _set_features (vhost_server : VhostServer) (msg : ServerMsg) : Outcome :=
  .returned vhost_server msg 0

/-- The handler `_set_owner`. -/
def _set_owner (vhost_server : VhostServer) (msg : ServerMsg) : Outcome :=
  .returned vhost_server msg 0

/-- The handler `_reset_owner`. -/
def _reset_owner (vhost_server : VhostServer) (msg : ServerMsg) : Outcome :=
  .returned vhost_server msg 0

/-- The `for` loop of `_set_mem_table`, started at `idx` with `remaining`
iterations to go.  A valid entry is written to `regions[idx]`; the three
address fields are stored before `assert(idx < msg->fd_num)`, and `mmap_addr`
and the count after it.  The second assertion, `msg->fds[idx] > 0`, repeats
the test of the enclosing `if` and cannot fail. -/
def _set_mem_table_loop (msg : ServerMsg) :
    Nat → Nat → VhostServer → Outcome
  | 0, _, vhost_server => .returned vhost_server msg 0
  | remaining + 1, idx, vhost_server =>
    match msg.fds[idx]? with
    | none => .undefined
    | some fd =>
      if fd > 0 then
        match vhost_server.memory.regions[idx]?, msg.msg.memory.regions[idx]? with
        | some region, some src =>
          let region := { region with
            guest_phys_addr := src.guest_phys_addr
            memory_size := src.memory_size
            userspace_addr := src.userspace_addr }
          let written : VhostServer := { vhost_server with
            memory := { vhost_server.memory with
              regions := vhost_server.memory.regions.set idx region } }
          if idx < msg.fd_num then
            let region := { region with mmap_addr := 0 }
            _set_mem_table_loop msg remaining (idx + 1)
              { vhost_server with
                memory :=
                  { nregions := (vhost_server.memory.nregions + 1) % 2 ^ 32
                    regions := vhost_server.memory.regions.set idx region } }
          else .aborted written msg
        | _, _ => .undefined
      else _set_mem_table_loop msg remaining (idx + 1) vhost_server

/-- The handler `_set_mem_table`. -/
def _set_mem_table (vhost_server : VhostServer) (msg : ServerMsg) : Outcome :=
  _set_mem_table_loop msg msg.msg.memory.nregions 0
    { vhost_server with memory := { vhost_server.memory with nregions := 0 } }

/-- The handler `_set_log_base`. -/
def _set_log_base (vhost_server : VhostServer) (msg : ServerMsg) : Outcome :=
  .returned vhost_server msg 0

/-- The handler `_set_log_fd`. -/
def _set_log_fd (vhost_server : VhostServer) (msg : ServerMsg) : Outcome :=
  .returned vhost_server msg 0

/-- The handler `_set_vring_num`. -/
def _set_vring_num (vhost_server : VhostServer) (msg : ServerMsg) : Outcome :=
  .returned vhost_server msg 0

/-- The handler `_set_vring_addr`: the three translated addresses are
computed and discarded. -/
def _set_vring_addr (vhost_server : VhostServer) (msg : ServerMsg) : Outcome :=
  let idx := toInt32 msg.msg.addr.index
  if idx < 2 then
    match _map_user_addr vhost_server msg.msg.addr.desc_user_addr,
      _map_user_addr vhost_server msg.msg.addr.avail_user_addr,
      _map_user_addr vhost_server msg.msg.addr.used_user_addr with
    | some _, some _, some _ => .returned vhost_server msg 0
    | _, _, _ => .undefined
  else .aborted vhost_server msg

/-- The handler `_set_vring_base`. -/
def _set_vring_base (vhost_server : VhostServer) (msg : ServerMsg) : Outcome :=
  let idx := toInt32 msg.msg.state.index
  if idx < 2 then
    if 0 ≤ idx ∧ idx.toNat < vhost_server.vring_base.length then
      .returned
        { vhost_server with
          vring_base := vhost_server.vring_base.set idx.toNat msg.msg.state.num }
        msg 0
    else .undefined
  else .aborted vhost_server msg

/-- The handler `_get_vring_base`. -/
def _get_vring_base (vhost_server : VhostServer) (msg : ServerMsg) : Outcome :=
  let idx := toInt32 msg.msg.state.index
  if idx < 2 then
    if 0 ≤ idx then
      match vhost_server.vring_base[idx.toNat]? with
      | some base =>
        .returned vhost_server
          { msg with msg := { msg.msg with state := { msg.msg.state with num := base } } } 1
      | none => .undefined
    else .undefined
  else .aborted vhost_server msg

/-- The handler `_set_vring_kick`: the descriptor `fds[0]` is read and
logged. -/
def _set_vring_kick (vhost_server : VhostServer) (msg : ServerMsg) : Outcome :=
  let idx := toInt32 msg.msg.file.index
  if idx < 2 then
    if msg.fd_num = 1 then
      match msg.fds[0]? with
      | some _ => .returned vhost_server msg 0
      | none => .undefined
    else .aborted vhost_server msg
  else .aborted vhost_server msg

/-- The handler `_set_vring_call`: the descriptor `fds[0]` is read and
logged. -/
def _set_vring_call (vhost_server : VhostServer) (msg : ServerMsg) : Outcome :=
  let idx := toInt32 msg.msg.file.index
  if idx < 2 then
    if msg.fd_num = 1 then
      match msg.fds[0]? with
      | some _ => .returned vhost_server msg 0
      | none => .undefined
    else .aborted vhost_server msg
  else .aborted vhost_server msg

/-- The handler `_set_vring_err`. -/
def _set_vring_err (vhost_server : VhostServer) (msg : ServerMsg) : Outcome :=
  .returned vhost_server msg 0

/-! ## Dispatch -/

/-- The type `MsgHandler`. -/
abbrev MsgHandler := VhostServer → ServerMsg → Outcome

/-- The table `msg_handlers`; `none` is the null pointer. -/
def msg_handlers : List (Option MsgHandler) :=
  [ none,                  -- VHOST_USER_NONE
    some _get_features,    -- VHOST_USER_GET_FEATURES
    some _set_features,    -- VHOST_USER_SET_FEATURES
    some _set_owner,       -- VHOST_USER_SET_OWNER
    some _reset_owner,     -- VHOST_USER_RESET_OWNER
    some _set_mem_table,   -- VHOST_USER_SET_MEM_TABLE
    some _set_log_base,    -- VHOST_USER_SET_LOG_BASE
    some _set_log_fd,      -- VHOST_USER_SET_LOG_FD
    some _set_vring_num,   -- VHOST_USER_SET_VRING_NUM
    some _set_vring_addr,  -- VHOST_USER_SET_VRING_ADDR
    some _set_vring_base,  -- VHOST_USER_SET_VRING_BASE
    some _get_vring_base,  -- VHOST_USER_GET_VRING_BASE
    some _set_vring_kick,  -- VHOST_USER_SET_VRING_KICK
    some _set_vring_call,  -- VHOST_USER_SET_VRING_CALL
    some _set_vring_err,   -- VHOST_USER_SET_VRING_ERR
    none ]                 -- VHOST_USER_NET_SET_BACKEND

/-- The function `in_msg_server`. -/
def in_msg_server (vhost_server : VhostServer) (msg : ServerMsg) : Outcome :=
  if msg.msg.request > VHOST_USER_NONE ∧ msg.msg.request < VHOST_USER_MAX then
    match msg_handlers[msg.msg.request]? with
    | some (some handler) => handler vhost_server msg
    | some none => .returned vhost_server msg 0
    | none => .undefined
  else .aborted vhost_server msg


/-! ## Construction -/

/-- The function `new_vhost_server`: `calloc` zero-fills the structure and
the region count is set to 0 (the transport set up from `path` is left
out). -/
def new_vhost_server : VhostServer :=
  { memory :=
      { nregions := 0
        regions := List.replicate VHOST_MEMORY_MAX_NREGIONS ⟨0, 0, 0, 0⟩ }
    vring_base := [0, 0] }

/-! ## Well-formed messages -/

/-- The conditions under which the handler selected for a message passes its
assertions and stays inside the arrays of the message: a SET_MEM_TABLE lists
at most `VHOST_MEMORY_MAX_NREGIONS` regions and has a descriptor slot for each
of them, the queue index of a vring message is 0 or 1, and a kick / call
message carries exactly one descriptor. -/
def ServerMsg.WellFormed (msg : ServerMsg) : Prop :=
  msg.Shaped ∧
  (msg.msg.request = VHOST_USER_SET_MEM_TABLE →
    msg.msg.memory.nregions ≤ VHOST_MEMORY_MAX_NREGIONS ∧
      msg.msg.memory.nregions ≤ msg.fd_num) ∧
  (msg.msg.request = VHOST_USER_SET_VRING_ADDR → msg.msg.addr.index < 2) ∧
  (msg.msg.request = VHOST_USER_SET_VRING_BASE ∨
    msg.msg.request = VHOST_USER_GET_VRING_BASE → msg.msg.state.index < 2) ∧
  (msg.msg.request = VHOST_USER_SET_VRING_KICK ∨
    msg.msg.request = VHOST_USER_SET_VRING_CALL →
      msg.msg.file.index < 2 ∧ msg.fd_num = 1)

instance (msg : ServerMsg) : Decidable msg.WellFormed := by
  unfold ServerMsg.WellFormed; exact inferInstance

/-! ## Concrete inputs -/

/-- A message of kind `request` with a zero payload and no descriptor. -/
def blankMsg (request : Nat) : ServerMsg :=
  { msg :=
      { request := request
        u64 := 0
        state := ⟨0, 0⟩
        addr := ⟨0, 0, 0, 0⟩
        file := ⟨0⟩
        memory := ⟨0, List.replicate VHOST_MEMORY_MAX_NREGIONS ⟨0, 0, 0⟩⟩ }
    fd_num := 0
    fds := List.replicate VHOST_MEMORY_MAX_NREGIONS 0 }

/-- The two-entry region list used by the concrete SET_MEM_TABLE messages:
entry 0 is {phys 0x2000, size 0x1000, user 0x1000}, entry 1 is
{phys 0x3000, size 0x1000, user 0x2000}. -/
def twoRegions : VhostUserMemory :=
  ⟨2, [⟨0x2000, 0x1000, 0x1000⟩, ⟨0x3000, 0x1000, 0x2000⟩,
    ⟨0, 0, 0⟩, ⟨0, 0, 0⟩, ⟨0, 0, 0⟩, ⟨0, 0, 0⟩, ⟨0, 0, 0⟩, ⟨0, 0, 0⟩]⟩

/-- SET_MEM_TABLE with two listed regions: descriptor 5 for entry 0 and the
invalid descriptor -1 for entry 1. -/
def memTableValidInvalid : ServerMsg :=
  { msg := { (blankMsg VHOST_USER_SET_MEM_TABLE).msg with memory := twoRegions }
    fd_num := 2
    fds := [5, -1, 0, 0, 0, 0, 0, 0] }

/-- SET_MEM_TABLE with two listed regions: the invalid descriptor -1 for
entry 0 and descriptor 7 for entry 1. -/
def memTableInvalidValid : ServerMsg :=
  { msg := { (blankMsg VHOST_USER_SET_MEM_TABLE).msg with memory := twoRegions }
    fd_num := 2
    fds := [-1, 7, 0, 0, 0, 0, 0, 0] }

/-- The server after `memTableValidInvalid` has been handled by a new
server: entry 0 of the list sits in slot 0 and the count is 1. -/
def serverOneRegion : VhostServer :=
  { memory :=
      { nregions := 1
        regions := [⟨0x2000, 0x1000, 0x1000, 0⟩, ⟨0, 0, 0, 0⟩, ⟨0, 0, 0, 0⟩,
          ⟨0, 0, 0, 0⟩, ⟨0, 0, 0, 0⟩, ⟨0, 0, 0, 0⟩, ⟨0, 0, 0, 0⟩, ⟨0, 0, 0, 0⟩] }
    vring_base := [0, 0] }

/-- A region that ends exactly at the top of the 64-bit address space:
user address `2 ^ 64 - 0x1000`, size `0x1000`, mapped at `0x7f0000`. -/
def topRegion : VhostServerMemoryRegion :=
  ⟨0, 0x1000, 2 ^ 64 - 0x1000, 0x7f0000⟩

/-- A server whose table holds `topRegion` alone. -/
def serverTopRegion : VhostServer :=
  { memory :=
      { nregions := 1
        regions := [topRegion, ⟨0, 0, 0, 0⟩, ⟨0, 0, 0, 0⟩, ⟨0, 0, 0, 0⟩,
          ⟨0, 0, 0, 0⟩, ⟨0, 0, 0, 0⟩, ⟨0, 0, 0, 0⟩, ⟨0, 0, 0, 0⟩] }
    vring_base := [0, 0] }

/-- A server whose table holds one region: user address `0x1000`, size
`0x1000`, mapped at `0x7f0000`. -/
def serverMappedRegion : VhostServer :=
  { memory :=
      { nregions := 1
        regions := [⟨0x2000, 0x1000, 0x1000, 0x7f0000⟩, ⟨0, 0, 0, 0⟩, ⟨0, 0, 0, 0⟩,
          ⟨0, 0, 0, 0⟩, ⟨0, 0, 0, 0⟩, ⟨0, 0, 0, 0⟩, ⟨0, 0, 0, 0⟩, ⟨0, 0, 0, 0⟩] }
    vring_base := [0, 0] }

/-- A server whose table holds one region mapped near the top of the 64-bit
range: user address `0x1000`, size `0x1000`, mapped at `2 ^ 64 - 0x10`. -/
def serverHighMap : VhostServer :=
  { memory :=
      { nregions := 1
        regions := [⟨0x2000, 0x1000, 0x1000, 2 ^ 64 - 0x10⟩, ⟨0, 0, 0, 0⟩, ⟨0, 0, 0, 0⟩,
          ⟨0, 0, 0, 0⟩, ⟨0, 0, 0, 0⟩, ⟨0, 0, 0, 0⟩, ⟨0, 0, 0, 0⟩, ⟨0, 0, 0, 0⟩] }
    vring_base := [0, 0] }

/-- The message SET_VRING_ADDR with queue index `index` and the ring
addresses 0x1040, 0x1800, 0x1c00. -/
def vringAddrMsg (index : Nat) : ServerMsg :=
  { blankMsg VHOST_USER_SET_VRING_ADDR with
    msg := { (blankMsg VHOST_USER_SET_VRING_ADDR).msg with
      addr := ⟨index, 0x1040, 0x1c00, 0x1800⟩ } }

/-- The message of kind `request` with the payload `state = {index, num}`. -/
def vringStateMsg (request index num : Nat) : ServerMsg :=
  { blankMsg request with
    msg := { (blankMsg request).msg with state := ⟨index, num⟩ } }

/-- The message of kind `request` with the mask `mask` in `u64`. -/
def featuresMsg (request mask : Nat) : ServerMsg :=
  { blankMsg request with
    msg := { (blankMsg request).msg with u64 := mask } }

/-! ## Message sequences -/

/-- The server after `in_msg_server` has handled the messages of a list one
after the other, each call starting from the server the call before it left;
`none` as soon as a call does not return (an assertion fails or an array is
left).  The replies are dropped. -/
def serveAll : VhostServer → List ServerMsg → Option VhostServer
  | s, [] => some s
  | s, msg :: rest =>
    match in_msg_server s msg with
    | .returned s' _ _ => serveAll s' rest
    | _ => none

/-! ## Further concrete inputs -/

/-- The message SET_VRING_ADDR with queue index `index` and the three ring
addresses `desc`, `avail` and `used`. -/
def vringAddrAt (index desc avail used : Nat) : ServerMsg :=
  { blankMsg VHOST_USER_SET_VRING_ADDR with
    msg := { (blankMsg VHOST_USER_SET_VRING_ADDR).msg with
      addr := ⟨index, desc, used, avail⟩ } }

/-- The message of kind `request` (SET_VRING_KICK or SET_VRING_CALL) with
queue index `index` and the one attached descriptor `fd`. -/
def vringFileMsg (request index : Nat) (fd : Int) : ServerMsg :=
  { msg := { (blankMsg request).msg with file := ⟨index⟩ }
    fd_num := 1
    fds := [fd, 0, 0, 0, 0, 0, 0, 0] }

/-- SET_MEM_TABLE with two listed regions and one attached descriptor
(`fd_num = 1`): descriptor 5 for entry 0, and the slot of entry 1 holds -1. -/
def memTableShortSkipped : ServerMsg :=
  { msg := { (blankMsg VHOST_USER_SET_MEM_TABLE).msg with memory := twoRegions }
    fd_num := 1
    fds := [5, -1, 0, 0, 0, 0, 0, 0] }

/-- SET_MEM_TABLE with two listed regions and one attached descriptor
(`fd_num = 1`): descriptor 5 for entry 0, and the slot of entry 1 holds the
positive value 9. -/
def memTableShortStale : ServerMsg :=
  { msg := { (blankMsg VHOST_USER_SET_MEM_TABLE).msg with memory := twoRegions }
    fd_num := 1
    fds := [5, 9, 0, 0, 0, 0, 0, 0] }

/-- A server with three installed regions and both ring bases set. -/
def serverThreeRegions : VhostServer :=
  { memory :=
      { nregions := 3
        regions := [⟨0x9000, 0x100, 0x9000, 0⟩, ⟨0xa000, 0x100, 0xa000, 0⟩,
          ⟨0xb000, 0x100, 0xb000, 0⟩, ⟨0, 0, 0, 0⟩, ⟨0, 0, 0, 0⟩, ⟨0, 0, 0, 0⟩,
          ⟨0, 0, 0, 0⟩, ⟨0, 0, 0, 0⟩] }
    vring_base := [3, 4] }

/-! ## Layout of `struct VhostServer` -/

/-- Size in bytes of `VhostServerMemoryRegion`: four `uint64_t`. -/
def sizeof_VhostServerMemoryRegion : Nat := 4 * 8

/-- Byte offset of `regions` in `VhostServerMemory`: the `uint32_t nregions`
at offset 0 is padded to the 8-byte alignment of the regions. -/
def offsetof_regions : Nat := 8

/-- Size in bytes of `VhostServerMemory`. -/
def sizeof_VhostServerMemory : Nat :=
  offsetof_regions + VHOST_MEMORY_MAX_NREGIONS * sizeof_VhostServerMemoryRegion

/-- Byte offset of `memory` in `VhostServer` on an LP64 target: it follows the
8-byte pointer `server`.  The count `memory.nregions` is the first field of
`memory` and has the same offset. -/
def offsetof_memory : Nat := 8

/-- Byte offset of `vring_base` in `VhostServer` on an LP64 target: it follows
`memory`. -/
def offsetof_vring_base : Nat := offsetof_memory + sizeof_VhostServerMemory

/-- Byte offset in `VhostServer` of the element `vring_base[idx]` (a 4-byte
`unsigned int`), the address `_set_vring_base` stores to and
`_get_vring_base` loads from. -/
def addressof_vring_base (idx : Int) : Int := offsetof_vring_base + 4 * idx

/-- The store `vhost_server->vring_base[idx] = num` of `_set_vring_base` as
an LP64 target carries it out: inside the array it writes the element; at the
byte offset of `memory.nregions` (a 4-byte unsigned value as well) it
overwrites the region count; a store to any other address is not followed
(`none`). -/
def vring_base_store (vhost_server : VhostServer) (idx : Int) (num : Nat) :
    Option VhostServer :=
  if 0 ≤ idx ∧ idx.toNat < vhost_server.vring_base.length then
    some { vhost_server with
      vring_base := vhost_server.vring_base.set idx.toNat num }
  else if addressof_vring_base idx = offsetof_memory then
    some { vhost_server with
      memory := { vhost_server.memory with nregions := num % 2 ^ 32 } }
  else none

/-! ## Arithmetic lemmas -/

theorem regionMap_eq (region : VhostServerMemoryRegion) (addr : Nat)
    (h : region.userspace_addr ≤ addr) :
    regionMap region addr =
      (region.mmap_addr + (addr - region.userspace_addr)) % 2 ^ 64 := by
  unfold regionMap u64sub u64add
  omega

theorem toInt64_zero : toInt64 0 = 0 := by
  decide

/-! ## Lemmas on the loop of `_map_user_addr` -/

theorem _map_user_addr_loop_hit (s : VhostServer) (a : Nat) :
    ∀ (k idx i : Nat) (region : VhostServerMemoryRegion),
      idx ≤ i → i < idx + k → s.memory.regions[i]? = some region →
      regionHit region a →
      (∀ j, idx ≤ j → j < i → ∀ r, s.memory.regions[j]? = some r → ¬ regionHit r a) →
      _map_user_addr_loop s a k idx = some (regionMap region a) := by
  intro k
  induction k with
  | zero => intro idx i region h1 h2; omega
  | succ k ih =>
    intro idx i region h1 h2 hreg hhit hfirst
    rcases Nat.eq_or_lt_of_le h1 with heq | hlt
    · subst heq
      simp [_map_user_addr_loop, hreg, hhit]
    · have hb : i < s.memory.regions.length := by
        rcases List.getElem?_eq_some.mp hreg with ⟨hb, _⟩
        exact hb
      have hidx : idx < s.memory.regions.length := by omega
      have hr : s.memory.regions[idx]? = some s.memory.regions[idx] :=
        List.getElem?_eq_getElem hidx
      have hno : ¬ regionHit s.memory.regions[idx] a :=
        hfirst idx (Nat.le_refl _) hlt _ hr
      have hrec := ih (idx + 1) i region (by omega) (by omega) hreg hhit
        (fun j hj1 hj2 r hjr => hfirst j (by omega) hj2 r hjr)
      simp [_map_user_addr_loop, hr, hno, hrec]

theorem _map_user_addr_loop_miss (s : VhostServer) (a : Nat) :
    ∀ (k idx : Nat), idx + k ≤ s.memory.regions.length →
      (∀ j, idx ≤ j → j < idx + k → ∀ r, s.memory.regions[j]? = some r → ¬ regionHit r a) →
      _map_user_addr_loop s a k idx = some 0 := by
  intro k
  induction k with
  | zero => intro idx _ _; rfl
  | succ k ih =>
    intro idx hlen hmiss
    have hidx : idx < s.memory.regions.length := by omega
    have hr : s.memory.regions[idx]? = some s.memory.regions[idx] :=
      List.getElem?_eq_getElem hidx
    have hno : ¬ regionHit s.memory.regions[idx] a :=
      hmiss idx (Nat.le_refl _) (by omega) _ hr
    have hrec := ih (idx + 1) (by omega)
      (fun j hj1 hj2 r hjr => hmiss j (by omega) (by omega) r hjr)
    simp [_map_user_addr_loop, hr, hno, hrec]

theorem _map_user_addr_loop_isSome (s : VhostServer) (a : Nat) :
    ∀ (k idx : Nat), idx + k ≤ s.memory.regions.length →
      ∃ v, _map_user_addr_loop s a k idx = some v := by
  intro k
  induction k with
  | zero => intro idx _; exact ⟨0, rfl⟩
  | succ k ih =>
    intro idx hlen
    have hidx : idx < s.memory.regions.length := by omega
    have hr : s.memory.regions[idx]? = some s.memory.regions[idx] :=
      List.getElem?_eq_getElem hidx
    by_cases hhit : regionHit s.memory.regions[idx] a
    · exact ⟨regionMap s.memory.regions[idx] a, by simp [_map_user_addr_loop, hr, hhit]⟩
    · obtain ⟨v, hv⟩ := ih (idx + 1) (by omega)
      exact ⟨v, by simp [_map_user_addr_loop, hr, hhit, hv]⟩

theorem _map_user_addr_isSome (s : VhostServer) (a : Nat)
    (h : s.memory.nregions ≤ s.memory.regions.length) :
    ∃ v, _map_user_addr s a = some v := by
  obtain ⟨v, hv⟩ := _map_user_addr_loop_isSome s a s.memory.nregions 0 (by omega)
  exact ⟨toInt64 v, by simp [_map_user_addr, hv]⟩

/-! ## Lemmas on the loop of `_set_mem_table` -/

theorem _set_mem_table_loop_spec (msg : ServerMsg) :
    ∀ (k idx : Nat) (s : VhostServer),
      idx + k ≤ msg.fds.length →
      idx + k ≤ msg.msg.memory.regions.length →
      idx + k ≤ s.memory.regions.length →
      idx + k ≤ msg.fd_num →
      s.memory.nregions + k < 2 ^ 32 →
      ∃ s', _set_mem_table_loop msg k idx s = .returned s' msg 0 ∧
        s'.vring_base = s.vring_base ∧
        s'.memory.regions.length = s.memory.regions.length ∧
        s'.memory.nregions =
          s.memory.nregions +
            ((msg.fds.drop idx).take k).countP (fun fd => decide (fd > 0)) ∧
        (∀ i fd src, idx ≤ i → i < idx + k → msg.fds[i]? = some fd → fd > 0 →
          msg.msg.memory.regions[i]? = some src →
          s'.memory.regions[i]? =
            some ⟨src.guest_phys_addr, src.memory_size, src.userspace_addr, 0⟩) ∧
        (∀ i, (i < idx ∨ idx + k ≤ i ∨ ∃ fd, msg.fds[i]? = some fd ∧ ¬ fd > 0) →
          s'.memory.regions[i]? = s.memory.regions[i]?) := by
  intro k
  induction k with
  | zero =>
    intro idx s _ _ _ _ _
    refine ⟨s, rfl, rfl, rfl, by simp, ?_, fun _ _ => rfl⟩
    intro i fd src h1 h2; omega
  | succ k ih =>
    intro idx s hf hm hr hn hc
    have hfi : idx < msg.fds.length := by omega
    have hmi : idx < msg.msg.memory.regions.length := by omega
    have hri : idx < s.memory.regions.length := by omega
    have hfd : msg.fds[idx]? = some msg.fds[idx] := List.getElem?_eq_getElem hfi
    have hsrc : msg.msg.memory.regions[idx]? = some msg.msg.memory.regions[idx] :=
      List.getElem?_eq_getElem hmi
    have hreg : s.memory.regions[idx]? = some s.memory.regions[idx] :=
      List.getElem?_eq_getElem hri
    have hdrop : msg.fds.drop idx = msg.fds[idx] :: msg.fds.drop (idx + 1) :=
      List.drop_eq_getElem_cons hfi
    by_cases hv : msg.fds[idx] > 0
    · have hlt : idx < msg.fd_num := by omega
      have hmod : (s.memory.nregions + 1) % 2 ^ 32 = s.memory.nregions + 1 :=
        Nat.mod_eq_of_lt (by omega)
      obtain ⟨s', hs', hvb, hlen, hcnt, hin, hout⟩ :=
        ih (idx + 1)
          { s with
            memory :=
              { nregions := (s.memory.nregions + 1) % 2 ^ 32
                regions := s.memory.regions.set idx
                  ⟨msg.msg.memory.regions[idx].guest_phys_addr,
                    msg.msg.memory.regions[idx].memory_size,
                    msg.msg.memory.regions[idx].userspace_addr, 0⟩ } }
          (by omega) (by omega) (by simp; omega) (by omega) (by simp [hmod]; omega)
      refine ⟨s', ?_, ?_, ?_, ?_, ?_, ?_⟩
      · simpa [_set_mem_table_loop, hfd, hsrc, hreg, hv, hlt] using hs'
      · simpa using hvb
      · simpa using hlen
      · rw [hcnt, hdrop, List.take_succ_cons, List.countP_cons]
        have hd : decide (msg.fds[idx] > 0) = true := decide_eq_true hv
        simp only [hmod, hd, if_true]
        omega
      · intro i fd src h1 h2 hifd hpos hisrc
        rcases Nat.eq_or_lt_of_le h1 with heq | hlt'
        · subst heq
          have := hout idx (Or.inl (Nat.lt_succ_self _))
          rw [this]
          rw [hsrc] at hisrc
          cases hisrc
          simp [List.getElem?_set, hri]
        · exact hin i fd src (by omega) (by omega) hifd hpos hisrc
      · intro i hi
        have hne : i ≠ idx := by
          rcases hi with h | h | ⟨fd, hfd', hnot⟩
          · omega
          · omega
          · intro heq
            subst heq
            rw [hfd] at hfd'
            cases hfd'
            exact hnot hv
        have := hout i (by
          rcases hi with h | h | h
          · exact Or.inl (by omega)
          · exact Or.inr (Or.inl (by omega))
          · exact Or.inr (Or.inr h))
        rw [this]
        simp [List.getElem?_set, Ne.symm hne]
    · obtain ⟨s', hs', hvb, hlen, hcnt, hin, hout⟩ :=
        ih (idx + 1) s (by omega) (by omega) (by omega) (by omega) (by omega)
      refine ⟨s', ?_, hvb, hlen, ?_, ?_, ?_⟩
      · simp [_set_mem_table_loop, hfd, hv, hs']
      · rw [hcnt, hdrop, List.take_succ_cons, List.countP_cons]
        have hd : decide (msg.fds[idx] > 0) = false := decide_eq_false hv
        simp only [hd]
        simp
      · intro i fd src h1 h2 hifd hpos hisrc
        rcases Nat.eq_or_lt_of_le h1 with heq | hlt'
        · subst heq
          rw [hfd] at hifd
          cases hifd
          exact absurd hpos hv
        · exact hin i fd src (by omega) (by omega) hifd hpos hisrc
      · intro i hi
        by_cases heq : i = idx
        · subst heq
          exact hout i (Or.inl (Nat.lt_succ_self _))
        · exact hout i (by
            rcases hi with h | h | h
            · exact Or.inl (by omega)
            · exact Or.inr (Or.inl (by omega))
            · exact Or.inr (Or.inr h))

/-! ## The region table after SET_MEM_TABLE -/

/-- C1: for every SET_MEM_TABLE message that lists at most
`VHOST_MEMORY_MAX_NREGIONS` regions and has a descriptor slot for each listed
region, `_set_mem_table` returns (no reply owed) and the region count it
stores is the number of listed entries `idx` with `fds[idx] > 0`. -/
theorem set_mem_table_count (s : VhostServer) (msg : ServerMsg)
    (hs : s.memory.regions.length = VHOST_MEMORY_MAX_NREGIONS)
    (hm : msg.Shaped)
    (hn : msg.msg.memory.nregions ≤ VHOST_MEMORY_MAX_NREGIONS)
    (hfd : msg.msg.memory.nregions ≤ msg.fd_num) :
    ∃ s', _set_mem_table s msg = .returned s' msg 0 ∧
      s'.memory.nregions =
        (msg.fds.take msg.msg.memory.nregions).countP (fun fd => decide (fd > 0)) := by
  obtain ⟨hf, hr⟩ := hm
  have hN : VHOST_MEMORY_MAX_NREGIONS = 8 := rfl
  obtain ⟨s', h1, _, _, h2, _, _⟩ :=
    _set_mem_table_loop_spec msg msg.msg.memory.nregions 0
      { s with memory := { s.memory with nregions := 0 } }
      (by omega) (by omega) (by simp; omega) (by omega) (by simp; omega)
  exact ⟨s', h1, by simpa using h2⟩

/-- C1, witness: two listed regions, the first with a valid descriptor and the
second with an invalid one, give a count of 1. -/
theorem set_mem_table_count_witness :
    ∃ s', _set_mem_table new_vhost_server memTableValidInvalid =
        .returned s' memTableValidInvalid 0 ∧
      s'.memory.nregions = 1 := by
  obtain ⟨s', h1, h2⟩ :=
    set_mem_table_count new_vhost_server memTableValidInvalid
      (by decide) (by decide) (by decide) (by decide)
  exact ⟨s', h1, by rw [h2]; decide⟩

/-- C2, the code at the failing input: a new server handles a SET_MEM_TABLE
whose entry 0 has an invalid descriptor and whose entry 1 has a valid one.
The count becomes 1, slot 0 (the only slot inside the counted range) is not
written and keeps its zero content, and entry 1 is stored in slot 1, outside
of the counted range. -/
theorem set_mem_table_keeps_list_index :
    _set_mem_table new_vhost_server memTableInvalidValid =
      .returned
        { memory :=
            { nregions := 1
              regions := [⟨0, 0, 0, 0⟩, ⟨0x3000, 0x1000, 0x2000, 0⟩, ⟨0, 0, 0, 0⟩,
                ⟨0, 0, 0, 0⟩, ⟨0, 0, 0, 0⟩, ⟨0, 0, 0, 0⟩, ⟨0, 0, 0, 0⟩, ⟨0, 0, 0, 0⟩] }
          vring_base := [0, 0] }
        memTableInvalidValid 0 := by
  decide

/-- C10, the code at the failing input: the same SET_MEM_TABLE message (entry
0 invalid, entry 1 valid) is handled from two prior states, a new server and
the server that holds one region from an earlier table.  Both end with count
1, but slot 0 differs: from the second state it still holds the region of the
earlier table. -/
theorem set_mem_table_leaves_stale_slot :
    ∃ sA sB,
      _set_mem_table new_vhost_server memTableInvalidValid =
        .returned sA memTableInvalidValid 0 ∧
      _set_mem_table serverOneRegion memTableInvalidValid =
        .returned sB memTableInvalidValid 0 ∧
      sA.memory.nregions = 1 ∧ sB.memory.nregions = 1 ∧
      sA.memory.regions[0]? = some ⟨0, 0, 0, 0⟩ ∧
      sB.memory.regions[0]? = some ⟨0x2000, 0x1000, 0x1000, 0⟩ ∧
      sB.memory.regions[0]? = serverOneRegion.memory.regions[0]? ∧
      sA.memory.regions[0]? ≠ sB.memory.regions[0]? := by
  refine ⟨_, _, rfl, rfl, ?_, ?_, ?_, ?_, ?_, ?_⟩ <;> decide

/-! ## Address translation -/

/-- C3, counterexample: the region `topRegion` ends at `2 ^ 64`; the address
`2 ^ 64 - 0x1000` satisfies `userspace_addr ≤ a < userspace_addr +
memory_size`, yet `_map_user_addr` returns 0 and not
`mmap_addr + (a - userspace_addr) = 0x7f0000`.  And for the region mapped at
`2 ^ 64 - 0x10` the address 0x1040, at offset 0x40, is translated to 0x30 and
not to `mmap_addr + 0x40`. -/
theorem map_user_addr_top_region_missed :
    (serverTopRegion.memory.regions[0]? = some topRegion ∧
      topRegion.userspace_addr ≤ 2 ^ 64 - 0x1000 ∧
      2 ^ 64 - 0x1000 < topRegion.userspace_addr + topRegion.memory_size ∧
      _map_user_addr serverTopRegion (2 ^ 64 - 0x1000) = some 0 ∧
      _map_user_addr serverTopRegion (2 ^ 64 - 0x1000) ≠
        some ((topRegion.mmap_addr + (2 ^ 64 - 0x1000 - topRegion.userspace_addr) : Nat) : Int)) ∧
    (serverHighMap.memory.regions[0]? = some ⟨0x2000, 0x1000, 0x1000, 2 ^ 64 - 0x10⟩ ∧
      _map_user_addr serverHighMap 0x1040 = some 0x30 ∧
      _map_user_addr serverHighMap 0x1040 ≠
        some ((2 ^ 64 - 0x10 + (0x1040 - 0x1000) : Nat) : Int)) := by
  decide

/-- C3, amended: if some region among the first `nregions` passes the 64-bit
test of the code, `userspace_addr ≤ a < (userspace_addr + memory_size) mod
2 ^ 64`, then `_map_user_addr` returns the 64-bit value
`(mmap_addr + (a - userspace_addr)) mod 2 ^ 64`, read as `int64_t`, computed
from the first such region in table order. -/
theorem map_user_addr_first_hit (s : VhostServer) (a : Nat)
    (h : ∃ j, j < s.memory.nregions ∧ ∃ r, s.memory.regions[j]? = some r ∧
      r.userspace_addr ≤ a ∧ a < (r.userspace_addr + r.memory_size) % 2 ^ 64) :
    ∃ i region, i < s.memory.nregions ∧ s.memory.regions[i]? = some region ∧
      (region.userspace_addr ≤ a ∧
        a < (region.userspace_addr + region.memory_size) % 2 ^ 64) ∧
      (∀ j, j < i → ∀ r, s.memory.regions[j]? = some r →
        ¬ (r.userspace_addr ≤ a ∧ a < (r.userspace_addr + r.memory_size) % 2 ^ 64)) ∧
      _map_user_addr s a =
        some (toInt64 ((region.mmap_addr + (a - region.userspace_addr)) % 2 ^ 64)) := by
  classical
  have hmin := Nat.find_spec h
  have hlt := fun j (hj : j < Nat.find h) => Nat.find_min h hj
  obtain ⟨hi, region, hreg, hhit⟩ := hmin
  refine ⟨Nat.find h, region, hi, hreg, hhit, ?_, ?_⟩
  · intro j hj r hr hjhit
    exact hlt j hj ⟨by omega, r, hr, hjhit⟩
  · have hloop := _map_user_addr_loop_hit s a s.memory.nregions 0 (Nat.find h) region
      (Nat.zero_le _) (by omega) hreg hhit
      (fun j _ hj r hr hjhit => hlt j hj ⟨by omega, r, hr, hjhit⟩)
    rw [_map_user_addr, hloop, regionMap_eq region a hhit.1]
    rfl

/-- C3, witness: in the one-region table {user 0x1000, size 0x1000, mapped at
0x7f0000} the address 0x1040 is translated to 0x7f0040. -/
theorem map_user_addr_first_hit_witness :
    ∃ i region, i < serverMappedRegion.memory.nregions ∧
      serverMappedRegion.memory.regions[i]? = some region ∧
      (region.userspace_addr ≤ 0x1040 ∧
        0x1040 < (region.userspace_addr + region.memory_size) % 2 ^ 64) ∧
      (∀ j, j < i → ∀ r, serverMappedRegion.memory.regions[j]? = some r →
        ¬ (r.userspace_addr ≤ 0x1040 ∧
          0x1040 < (r.userspace_addr + r.memory_size) % 2 ^ 64)) ∧
      _map_user_addr serverMappedRegion 0x1040 =
        some (toInt64 ((region.mmap_addr + (0x1040 - region.userspace_addr)) % 2 ^ 64)) :=
  map_user_addr_first_hit serverMappedRegion 0x1040
    ⟨0, by decide, ⟨0x2000, 0x1000, 0x1000, 0x7f0000⟩, by decide, by decide, by decide⟩

/-- C4, counterexample: in the table installed by `_set_mem_table` (one
region, user address 0x1000, size 0x1000) the address 0x5000 lies outside of
every region and the address 0x1000 is offset 0 of region 0, and
`_map_user_addr` returns the same value, 0, for both. -/
theorem map_user_addr_not_found_is_zero_offset :
    _set_mem_table new_vhost_server memTableValidInvalid =
      .returned serverOneRegion memTableValidInvalid 0 ∧
    (∀ r ∈ serverOneRegion.memory.regions.take serverOneRegion.memory.nregions,
      ¬ (r.userspace_addr ≤ 0x5000 ∧ 0x5000 < r.userspace_addr + r.memory_size)) ∧
    (∃ r, serverOneRegion.memory.regions[0]? = some r ∧ r.userspace_addr = 0x1000 ∧
      0x1000 < r.userspace_addr + r.memory_size) ∧
    _map_user_addr serverOneRegion 0x5000 = some 0 ∧
    _map_user_addr serverOneRegion 0x5000 = _map_user_addr serverOneRegion 0x1000 := by
  refine ⟨by decide, by decide, ⟨_, rfl, by decide, by decide⟩, by decide, by decide⟩

/-- C4, amended: for every region table whose count is within the array
(the empty table included) and every address `a` that no region among the
first `nregions` matches, `_map_user_addr` returns 0. -/
theorem map_user_addr_miss (s : VhostServer) (a : Nat)
    (hb : s.memory.nregions ≤ s.memory.regions.length)
    (hout : ∀ j, j < s.memory.nregions → ∀ r, s.memory.regions[j]? = some r →
      ¬ (r.userspace_addr ≤ a ∧ a < (r.userspace_addr + r.memory_size) % 2 ^ 64)) :
    _map_user_addr s a = some 0 := by
  have hloop := _map_user_addr_loop_miss s a s.memory.nregions 0 (by omega)
    (fun j _ hj r hr => hout j (by omega) r hr)
  rw [_map_user_addr, hloop]
  rfl

/-- C4, witness: in the one-region table installed by `_set_mem_table` (user
address 0x1000, size 0x1000) the address 0x5000 is translated to 0. -/
theorem map_user_addr_miss_witness :
    serverOneRegion.memory.nregions ≤ serverOneRegion.memory.regions.length ∧
      _map_user_addr serverOneRegion 0x5000 = some 0 :=
  ⟨by decide,
    map_user_addr_miss serverOneRegion 0x5000 (by decide)
      (fun j hj r hr => by
        have hj0 : j = 0 := Nat.lt_one_iff.mp hj
        subst hj0
        obtain rfl : (⟨0x2000, 0x1000, 0x1000, 0⟩ : VhostServerMemoryRegion) = r :=
          Option.some.inj hr
        decide)⟩

/-! ## Lemmas on the handlers -/

theorem toInt32_of_lt (x : Nat) (h : x < 2 ^ 31) : toInt32 x = (x : Int) := by
  unfold toInt32
  have hx : x % 2 ^ 32 = x := Nat.mod_eq_of_lt (by omega)
  rw [hx, if_pos h]

theorem _set_vring_addr_returns (s : VhostServer) (msg : ServerMsg)
    (hb : s.memory.nregions ≤ s.memory.regions.length)
    (hidx : msg.msg.addr.index < 2) :
    _set_vring_addr s msg = .returned s msg 0 := by
  obtain ⟨d, hd⟩ := _map_user_addr_isSome s msg.msg.addr.desc_user_addr hb
  obtain ⟨v, hv⟩ := _map_user_addr_isSome s msg.msg.addr.avail_user_addr hb
  obtain ⟨u, hu⟩ := _map_user_addr_isSome s msg.msg.addr.used_user_addr hb
  have hi : toInt32 msg.msg.addr.index < 2 := by
    rw [toInt32_of_lt _ (by omega)]
    omega
  simp [_set_vring_addr, hi, hd, hv, hu]

theorem _set_vring_base_returns (s : VhostServer) (msg : ServerMsg)
    (hs : s.vring_base.length = 2) (hidx : msg.msg.state.index < 2) :
    _set_vring_base s msg =
      .returned
        { s with vring_base := s.vring_base.set msg.msg.state.index msg.msg.state.num }
        msg 0 := by
  have hi : toInt32 msg.msg.state.index = (msg.msg.state.index : Int) :=
    toInt32_of_lt _ (by omega)
  have h2 : (msg.msg.state.index : Int) < 2 := by omega
  simp [_set_vring_base, hi, h2, hs, hidx]

theorem _get_vring_base_returns (s : VhostServer) (msg : ServerMsg)
    (hs : s.vring_base.length = 2) (hidx : msg.msg.state.index < 2) :
    ∃ base, s.vring_base[msg.msg.state.index]? = some base ∧
      _get_vring_base s msg =
        .returned s
          { msg with msg := { msg.msg with state := { msg.msg.state with num := base } } }
          1 := by
  have hi : toInt32 msg.msg.state.index = (msg.msg.state.index : Int) :=
    toInt32_of_lt _ (by omega)
  have h2 : (msg.msg.state.index : Int) < 2 := by omega
  have hlt : msg.msg.state.index < s.vring_base.length := by omega
  have hget : s.vring_base[msg.msg.state.index]? = some s.vring_base[msg.msg.state.index] :=
    List.getElem?_eq_getElem hlt
  refine ⟨s.vring_base[msg.msg.state.index], hget, ?_⟩
  simp [_get_vring_base, hi, h2, hget]

theorem _set_vring_kick_returns (s : VhostServer) (msg : ServerMsg)
    (hf : msg.fds.length = VHOST_MEMORY_MAX_NREGIONS)
    (hidx : msg.msg.file.index < 2) (hnum : msg.fd_num = 1) :
    _set_vring_kick s msg = .returned s msg 0 := by
  have hi : toInt32 msg.msg.file.index < 2 := by
    rw [toInt32_of_lt _ (by omega)]
    omega
  have hlt : 0 < msg.fds.length := by rw [hf]; decide
  have hget : msg.fds[0]? = some msg.fds[0] := List.getElem?_eq_getElem hlt
  simp [_set_vring_kick, hi, hnum, hget]

theorem _set_vring_call_returns (s : VhostServer) (msg : ServerMsg)
    (hf : msg.fds.length = VHOST_MEMORY_MAX_NREGIONS)
    (hidx : msg.msg.file.index < 2) (hnum : msg.fd_num = 1) :
    _set_vring_call s msg = .returned s msg 0 := by
  have hi : toInt32 msg.msg.file.index < 2 := by
    rw [toInt32_of_lt _ (by omega)]
    omega
  have hlt : 0 < msg.fds.length := by rw [hf]; decide
  have hget : msg.fds[0]? = some msg.fds[0] := List.getElem?_eq_getElem hlt
  simp [_set_vring_call, hi, hnum, hget]

theorem _set_mem_table_returns (s : VhostServer) (msg : ServerMsg)
    (hs : s.memory.regions.length = VHOST_MEMORY_MAX_NREGIONS)
    (hm : msg.Shaped)
    (hn : msg.msg.memory.nregions ≤ VHOST_MEMORY_MAX_NREGIONS)
    (hfd : msg.msg.memory.nregions ≤ msg.fd_num) :
    ∃ s', _set_mem_table s msg = .returned s' msg 0 := by
  obtain ⟨hf, hr⟩ := hm
  have hN : VHOST_MEMORY_MAX_NREGIONS = 8 := rfl
  obtain ⟨s', h1, _⟩ :=
    _set_mem_table_loop_spec msg msg.msg.memory.nregions 0
      { s with memory := { s.memory with nregions := 0 } }
      (by omega) (by omega) (by simp; omega) (by omega) (by simp; omega)
  exact ⟨s', h1⟩

/-! ## Dispatch and the vring and feature handlers -/

/-- C5: for every server state, every queue index `idx` in {0, 1} and every
value `v`, `in_msg_server` on SET_VRING_BASE(idx, v) returns with no reply
owed, and on a following GET_VRING_BASE(idx) it writes `v` into `state.num`
of the message and returns 1 (reply owed). -/
theorem set_then_get_vring_base (s : VhostServer) (setMsg getMsg : ServerMsg)
    (idx v : Nat)
    (hs : s.vring_base.length = 2) (hidx : idx < 2)
    (hset : setMsg.msg.request = VHOST_USER_SET_VRING_BASE)
    (hsetp : setMsg.msg.state = ⟨idx, v⟩)
    (hget : getMsg.msg.request = VHOST_USER_GET_VRING_BASE)
    (hgetp : getMsg.msg.state.index = idx) :
    ∃ s1, in_msg_server s setMsg = .returned s1 setMsg 0 ∧
      in_msg_server s1 getMsg =
        .returned s1
          { getMsg with msg := { getMsg.msg with state := ⟨idx, v⟩ } } 1 := by
  subst hgetp
  have hsi : setMsg.msg.state.index = getMsg.msg.state.index := by rw [hsetp]
  have hsn : setMsg.msg.state.num = v := by rw [hsetp]
  refine ⟨{ s with vring_base := s.vring_base.set getMsg.msg.state.index v }, ?_, ?_⟩
  · have h := _set_vring_base_returns s setMsg hs (by omega)
    rw [hsi, hsn] at h
    simp [in_msg_server, hset, VHOST_USER_SET_VRING_BASE, VHOST_USER_NONE,
      VHOST_USER_MAX, msg_handlers, h]
  · obtain ⟨base, hb, h⟩ :=
      _get_vring_base_returns
        { s with vring_base := s.vring_base.set getMsg.msg.state.index v } getMsg
        (by simp [hs]) (by omega)
    have hbase : base = v := by
      have hlt : getMsg.msg.state.index < s.vring_base.length := by omega
      simp [List.getElem?_set, hlt] at hb
      exact hb.symm
    subst hbase
    simp [in_msg_server, hget, VHOST_USER_GET_VRING_BASE, VHOST_USER_NONE,
      VHOST_USER_MAX, msg_handlers, h]

/-- C5, witness: on a new server SET_VRING_BASE(1, 0xabcd) followed by
GET_VRING_BASE(1) replies 0xabcd. -/
theorem set_then_get_vring_base_witness :
    ∃ s1,
      in_msg_server new_vhost_server (vringStateMsg VHOST_USER_SET_VRING_BASE 1 0xabcd) =
        .returned s1 (vringStateMsg VHOST_USER_SET_VRING_BASE 1 0xabcd) 0 ∧
      in_msg_server s1 (vringStateMsg VHOST_USER_GET_VRING_BASE 1 0) =
        .returned s1 (vringStateMsg VHOST_USER_GET_VRING_BASE 1 0xabcd) 1 :=
  set_then_get_vring_base new_vhost_server
    (vringStateMsg VHOST_USER_SET_VRING_BASE 1 0xabcd)
    (vringStateMsg VHOST_USER_GET_VRING_BASE 1 0) 1 0xabcd
    (by decide) (by decide) rfl rfl rfl rfl

/-- C6: for every server state (arrays of the declared sizes, region count
within the table) and every well-formed message whose request kind is one of
the 14 handled kinds 1..14, `in_msg_server` returns, and the value it returns
is 1 when the kind is GET_FEATURES or GET_VRING_BASE and 0 for every other
handled kind. -/
theorem in_msg_server_reply_owed (s : VhostServer) (msg : ServerMsg)
    (hs : s.Shaped) (hn : s.memory.nregions ≤ VHOST_MEMORY_MAX_NREGIONS)
    (hm : msg.WellFormed)
    (h1 : 1 ≤ msg.msg.request) (h14 : msg.msg.request ≤ 14) :
    ∃ s' msg', in_msg_server s msg =
      .returned s' msg'
        (if msg.msg.request = VHOST_USER_GET_FEATURES ∨
            msg.msg.request = VHOST_USER_GET_VRING_BASE then 1 else 0) := by
  obtain ⟨hsr, hsv⟩ := hs
  obtain ⟨hshape, hmem, haddr, hstate, hfile⟩ := hm
  have hb : s.memory.nregions ≤ s.memory.regions.length := by rw [hsr]; exact hn
  have hcases : msg.msg.request = 1 ∨ msg.msg.request = 2 ∨ msg.msg.request = 3 ∨
      msg.msg.request = 4 ∨ msg.msg.request = 5 ∨ msg.msg.request = 6 ∨
      msg.msg.request = 7 ∨ msg.msg.request = 8 ∨ msg.msg.request = 9 ∨
      msg.msg.request = 10 ∨ msg.msg.request = 11 ∨ msg.msg.request = 12 ∨
      msg.msg.request = 13 ∨ msg.msg.request = 14 := by omega
  rcases hcases with h | h | h | h | h | h | h | h | h | h | h | h | h | h
  · exact ⟨s, { msg with msg := { msg.msg with u64 := 0 } }, by
      simp [in_msg_server, h, VHOST_USER_NONE, VHOST_USER_MAX, msg_handlers,
        VHOST_USER_GET_FEATURES, _get_features]⟩
  · exact ⟨s, msg, by
      simp [in_msg_server, h, VHOST_USER_NONE, VHOST_USER_MAX, msg_handlers,
        VHOST_USER_GET_FEATURES, VHOST_USER_GET_VRING_BASE, _set_features]⟩
  · exact ⟨s, msg, by
      simp [in_msg_server, h, VHOST_USER_NONE, VHOST_USER_MAX, msg_handlers,
        VHOST_USER_GET_FEATURES, VHOST_USER_GET_VRING_BASE, _set_owner]⟩
  · exact ⟨s, msg, by
      simp [in_msg_server, h, VHOST_USER_NONE, VHOST_USER_MAX, msg_handlers,
        VHOST_USER_GET_FEATURES, VHOST_USER_GET_VRING_BASE, _reset_owner]⟩
  · obtain ⟨s', hs'⟩ := _set_mem_table_returns s msg hsr hshape (hmem h).1 (hmem h).2
    exact ⟨s', msg, by
      simp [in_msg_server, h, VHOST_USER_NONE, VHOST_USER_MAX, msg_handlers,
        VHOST_USER_GET_FEATURES, VHOST_USER_GET_VRING_BASE, hs']⟩
  · exact ⟨s, msg, by
      simp [in_msg_server, h, VHOST_USER_NONE, VHOST_USER_MAX, msg_handlers,
        VHOST_USER_GET_FEATURES, VHOST_USER_GET_VRING_BASE, _set_log_base]⟩
  · exact ⟨s, msg, by
      simp [in_msg_server, h, VHOST_USER_NONE, VHOST_USER_MAX, msg_handlers,
        VHOST_USER_GET_FEATURES, VHOST_USER_GET_VRING_BASE, _set_log_fd]⟩
  · exact ⟨s, msg, by
      simp [in_msg_server, h, VHOST_USER_NONE, VHOST_USER_MAX, msg_handlers,
        VHOST_USER_GET_FEATURES, VHOST_USER_GET_VRING_BASE, _set_vring_num]⟩
  · have hr := _set_vring_addr_returns s msg hb (haddr h)
    exact ⟨s, msg, by
      simp [in_msg_server, h, VHOST_USER_NONE, VHOST_USER_MAX, msg_handlers,
        VHOST_USER_GET_FEATURES, VHOST_USER_GET_VRING_BASE, hr]⟩
  · have hr := _set_vring_base_returns s msg hsv (hstate (Or.inl h))
    exact ⟨{ s with vring_base := s.vring_base.set msg.msg.state.index msg.msg.state.num },
      msg, by
      simp [in_msg_server, h, VHOST_USER_NONE, VHOST_USER_MAX, msg_handlers,
        VHOST_USER_GET_FEATURES, VHOST_USER_GET_VRING_BASE, hr]⟩
  · obtain ⟨base, _, hr⟩ := _get_vring_base_returns s msg hsv (hstate (Or.inr h))
    exact ⟨s,
      { msg with msg := { msg.msg with state := { msg.msg.state with num := base } } }, by
      simp [in_msg_server, h, VHOST_USER_NONE, VHOST_USER_MAX, msg_handlers,
        VHOST_USER_GET_FEATURES, VHOST_USER_GET_VRING_BASE, hr]⟩
  · have hr := _set_vring_kick_returns s msg hshape.1 (hfile (Or.inl h)).1 (hfile (Or.inl h)).2
    exact ⟨s, msg, by
      simp [in_msg_server, h, VHOST_USER_NONE, VHOST_USER_MAX, msg_handlers,
        VHOST_USER_GET_FEATURES, VHOST_USER_GET_VRING_BASE, hr]⟩
  · have hr := _set_vring_call_returns s msg hshape.1 (hfile (Or.inr h)).1 (hfile (Or.inr h)).2
    exact ⟨s, msg, by
      simp [in_msg_server, h, VHOST_USER_NONE, VHOST_USER_MAX, msg_handlers,
        VHOST_USER_GET_FEATURES, VHOST_USER_GET_VRING_BASE, hr]⟩
  · exact ⟨s, msg, by
      simp [in_msg_server, h, VHOST_USER_NONE, VHOST_USER_MAX, msg_handlers,
        VHOST_USER_GET_FEATURES, VHOST_USER_GET_VRING_BASE, _set_vring_err]⟩

/-- C6, witness: SET_VRING_ADDR with queue index 0, handled by the server
that holds one region, returns 0 (no reply owed). -/
theorem in_msg_server_reply_owed_witness :
    ∃ s' msg', in_msg_server serverOneRegion (vringAddrMsg 0) = .returned s' msg' 0 :=
  in_msg_server_reply_owed serverOneRegion (vringAddrMsg 0)
    (by decide) (by decide) (by decide) (by decide) (by decide)

/-- C7: for every server state, `in_msg_server` on GET_FEATURES sets the
64-bit mask `u64` of the message to 0 and returns 1; on SET_FEATURES with any
mask it returns 0 and leaves the server state as it was, so that a following
GET_FEATURES again yields the mask 0. -/
theorem features_always_empty (s : VhostServer) (setMsg getMsg : ServerMsg)
    (hset : setMsg.msg.request = VHOST_USER_SET_FEATURES)
    (hget : getMsg.msg.request = VHOST_USER_GET_FEATURES) :
    in_msg_server s getMsg =
      .returned s { getMsg with msg := { getMsg.msg with u64 := 0 } } 1 ∧
    ∃ s1, in_msg_server s setMsg = .returned s1 setMsg 0 ∧ s1 = s ∧
      in_msg_server s1 getMsg =
        .returned s1 { getMsg with msg := { getMsg.msg with u64 := 0 } } 1 := by
  have hg : in_msg_server s getMsg =
      .returned s { getMsg with msg := { getMsg.msg with u64 := 0 } } 1 := by
    simp [in_msg_server, hget, VHOST_USER_NONE, VHOST_USER_MAX, msg_handlers,
      VHOST_USER_GET_FEATURES, _get_features]
  refine ⟨hg, s, ?_, rfl, hg⟩
  simp [in_msg_server, hset, VHOST_USER_NONE, VHOST_USER_MAX, msg_handlers,
    VHOST_USER_SET_FEATURES, _set_features]

/-- C7, witness: SET_FEATURES with the mask 0xff followed by GET_FEATURES on
the server that holds one region. -/
theorem features_always_empty_witness :
    in_msg_server serverOneRegion (featuresMsg VHOST_USER_GET_FEATURES 0x55) =
      .returned serverOneRegion (featuresMsg VHOST_USER_GET_FEATURES 0) 1 ∧
    ∃ s1, in_msg_server serverOneRegion (featuresMsg VHOST_USER_SET_FEATURES 0xff) =
        .returned s1 (featuresMsg VHOST_USER_SET_FEATURES 0xff) 0 ∧
      s1 = serverOneRegion ∧
      in_msg_server s1 (featuresMsg VHOST_USER_GET_FEATURES 0x55) =
        .returned s1 (featuresMsg VHOST_USER_GET_FEATURES 0) 1 :=
  features_always_empty serverOneRegion (featuresMsg VHOST_USER_SET_FEATURES 0xff)
    (featuresMsg VHOST_USER_GET_FEATURES 0x55) rfl rfl

/-- For a queue index from 2 up to `2 ^ 31 - 1` the assertion `idx<2` of
`_set_vring_addr`, `_set_vring_base` and `_get_vring_base` fails before the
server or the message is touched. -/
theorem vring_index_assert_fails (s : VhostServer) (msg : ServerMsg) (index : Nat)
    (h2 : 2 ≤ index) (h31 : index < 2 ^ 31) :
    (msg.msg.addr.index = index → _set_vring_addr s msg = .aborted s msg) ∧
    (msg.msg.state.index = index → _set_vring_base s msg = .aborted s msg) ∧
    (msg.msg.state.index = index → _get_vring_base s msg = .aborted s msg) ∧
    (msg.msg.file.index = index → _set_vring_kick s msg = .aborted s msg) ∧
    (msg.msg.file.index = index → _set_vring_call s msg = .aborted s msg) := by
  have hi : ¬ toInt32 index < 2 := by
    rw [toInt32_of_lt _ h31]
    omega
  refine ⟨?_, ?_, ?_, ?_, ?_⟩ <;> intro h
  · simp [_set_vring_addr, h, hi]
  · simp [_set_vring_base, h, hi]
  · simp [_get_vring_base, h, hi]
  · simp [_set_vring_kick, h, hi]
  · simp [_set_vring_call, h, hi]

/-- C8, the code at the failing input: the queue index 0xFFFFFFFF is read
into `int idx` as -1, so the check `idx<2` passes.  SET_VRING_ADDR with this
index is accepted (the handler returns 0), SET_VRING_KICK and SET_VRING_CALL
with one descriptor are accepted too, and SET_VRING_BASE and GET_VRING_BASE
go on to access `vring_base[-1]`, outside of the array. -/
theorem vring_index_sign_slip :
    toInt32 0xFFFFFFFF = -1 ∧
    in_msg_server new_vhost_server (vringAddrMsg 0xFFFFFFFF) =
      .returned new_vhost_server (vringAddrMsg 0xFFFFFFFF) 0 ∧
    in_msg_server new_vhost_server
      { blankMsg VHOST_USER_SET_VRING_KICK with
        msg := { (blankMsg VHOST_USER_SET_VRING_KICK).msg with file := ⟨0xFFFFFFFF⟩ }
        fd_num := 1 } =
      .returned new_vhost_server
        { blankMsg VHOST_USER_SET_VRING_KICK with
          msg := { (blankMsg VHOST_USER_SET_VRING_KICK).msg with file := ⟨0xFFFFFFFF⟩ }
          fd_num := 1 } 0 ∧
    in_msg_server new_vhost_server
      { blankMsg VHOST_USER_SET_VRING_CALL with
        msg := { (blankMsg VHOST_USER_SET_VRING_CALL).msg with file := ⟨0xFFFFFFFF⟩ }
        fd_num := 1 } =
      .returned new_vhost_server
        { blankMsg VHOST_USER_SET_VRING_CALL with
          msg := { (blankMsg VHOST_USER_SET_VRING_CALL).msg with file := ⟨0xFFFFFFFF⟩ }
          fd_num := 1 } 0 ∧
    in_msg_server new_vhost_server
      (vringStateMsg VHOST_USER_SET_VRING_BASE 0xFFFFFFFF 7) = .undefined ∧
    in_msg_server new_vhost_server
      (vringStateMsg VHOST_USER_GET_VRING_BASE 0xFFFFFFFF 0) = .undefined := by
  decide

/-- C9, counterexample: for the reserved kind 0 and for the kind 16, outside
of the enumerated range, `in_msg_server` does not return 0: its range
assertion fails. -/
theorem in_msg_server_kind_none_aborts :
    in_msg_server new_vhost_server (blankMsg VHOST_USER_NONE) =
      .aborted new_vhost_server (blankMsg VHOST_USER_NONE) ∧
    in_msg_server new_vhost_server (blankMsg 16) =
      .aborted new_vhost_server (blankMsg 16) ∧
    ¬ ∃ s' msg', in_msg_server new_vhost_server (blankMsg VHOST_USER_NONE) =
      .returned s' msg' 0 := by
  refine ⟨by decide, by decide, ?_⟩
  rintro ⟨s', msg', h⟩
  have h0 : in_msg_server new_vhost_server (blankMsg VHOST_USER_NONE) =
      .aborted new_vhost_server (blankMsg VHOST_USER_NONE) := by decide
  rw [h0] at h
  cases h

/-- C9, amended: for every server state and every message whose request kind
has no handler, `in_msg_server` calls no handler and leaves the server and the
message as they are; for the kind 15 it returns 0 (no reply owed), and for the
kind 0 and every kind above 15 its range assertion fails instead of a
return. -/
theorem in_msg_server_unhandled (s : VhostServer) (msg : ServerMsg)
    (h : msg.msg.request = VHOST_USER_NONE ∨ VHOST_USER_NET_SET_BACKEND ≤ msg.msg.request) :
    in_msg_server s msg =
      if msg.msg.request = VHOST_USER_NET_SET_BACKEND then .returned s msg 0
      else .aborted s msg := by
  unfold VHOST_USER_NONE VHOST_USER_NET_SET_BACKEND at *
  by_cases h15 : msg.msg.request = 15
  · simp [in_msg_server, h15, VHOST_USER_NONE, VHOST_USER_MAX, msg_handlers]
  · have hr : ¬ (msg.msg.request > 0 ∧ msg.msg.request < 16) := by omega
    simp [in_msg_server, h15, VHOST_USER_NONE, VHOST_USER_MAX, hr]

/-- C9, witness: the kind 15 on the server that holds one region. -/
theorem in_msg_server_unhandled_witness :
    in_msg_server serverOneRegion (blankMsg VHOST_USER_NET_SET_BACKEND) =
      .returned serverOneRegion (blankMsg VHOST_USER_NET_SET_BACKEND) 0 :=
  in_msg_server_unhandled serverOneRegion (blankMsg VHOST_USER_NET_SET_BACKEND)
    (Or.inr (Nat.le_refl _))


/-! ## What a returning call can change -/

theorem _set_mem_table_loop_returned (msg : ServerMsg) :
    ∀ (k idx : Nat) (s s' : VhostServer) (msg' : ServerMsg) (r : Int),
      _set_mem_table_loop msg k idx s = .returned s' msg' r →
      s'.vring_base = s.vring_base ∧
      s'.memory.regions.length = s.memory.regions.length ∧
      s'.memory.nregions ≤ s.memory.nregions + (msg.fd_num - idx) := by
  intro k
  induction k with
  | zero =>
    intro idx s s' msg' r h
    simp only [_set_mem_table_loop, Outcome.returned.injEq] at h
    obtain ⟨rfl, _, _⟩ := h
    exact ⟨rfl, rfl, Nat.le_add_right _ _⟩
  | succ k ih =>
    intro idx s s' msg' r h
    simp only [_set_mem_table_loop] at h
    split at h
    · cases h
    · split at h
      · split at h
        · split at h
          · have hrec := ih _ _ _ _ _ h
            simp only [List.length_set] at hrec
            refine ⟨hrec.1, hrec.2.1, ?_⟩
            have hm := Nat.mod_le (s.memory.nregions + 1) (2 ^ 32)
            omega
          · cases h
        · cases h
      · have hrec := ih _ _ _ _ _ h
        exact ⟨hrec.1, hrec.2.1, by omega⟩

theorem _set_mem_table_returned (s s' : VhostServer) (msg msg' : ServerMsg) (r : Int)
    (h : _set_mem_table s msg = .returned s' msg' r) :
    s'.vring_base = s.vring_base ∧
      s'.memory.regions.length = s.memory.regions.length ∧
      s'.memory.nregions ≤ msg.fd_num := by
  have hrec := _set_mem_table_loop_returned msg _ _ _ _ _ _ h
  simpa using hrec

theorem _set_vring_base_returned (s s' : VhostServer) (msg msg' : ServerMsg) (r : Int)
    (h : _set_vring_base s msg = .returned s' msg' r) :
    s'.memory = s.memory ∧
      ∃ i : Nat, toInt32 msg.msg.state.index = (i : Int) ∧ i < 2 ∧
        s'.vring_base = s.vring_base.set i msg.msg.state.num := by
  simp only [_set_vring_base] at h
  split at h
  · split at h
    · rename_i hlt hb
      simp only [Outcome.returned.injEq] at h
      obtain ⟨rfl, _, _⟩ := h
      refine ⟨rfl, (toInt32 msg.msg.state.index).toNat, ?_, ?_, rfl⟩
      · exact (Int.toNat_of_nonneg hb.1).symm
      · omega
    · cases h
  · cases h

theorem in_msg_server_returned (s s' : VhostServer) (msg msg' : ServerMsg) (r : Int)
    (h : in_msg_server s msg = .returned s' msg' r) :
    s' = s ∨
    (msg.msg.request = VHOST_USER_SET_MEM_TABLE ∧
      _set_mem_table s msg = .returned s' msg' r) ∨
    (msg.msg.request = VHOST_USER_SET_VRING_BASE ∧
      _set_vring_base s msg = .returned s' msg' r) := by
  simp only [in_msg_server, VHOST_USER_NONE, VHOST_USER_MAX] at h
  split at h
  · rename_i hr
    have hcases : msg.msg.request = 1 ∨ msg.msg.request = 2 ∨ msg.msg.request = 3 ∨
        msg.msg.request = 4 ∨ msg.msg.request = 5 ∨ msg.msg.request = 6 ∨
        msg.msg.request = 7 ∨ msg.msg.request = 8 ∨ msg.msg.request = 9 ∨
        msg.msg.request = 10 ∨ msg.msg.request = 11 ∨ msg.msg.request = 12 ∨
        msg.msg.request = 13 ∨ msg.msg.request = 14 ∨ msg.msg.request = 15 := by omega
    rcases hcases with e | e | e | e | e | e | e | e | e | e | e | e | e | e | e <;>
      simp only [e, msg_handlers] at h
    · simp [_get_features] at h; exact Or.inl h.1.symm
    · simp [_set_features] at h; exact Or.inl h.1.symm
    · simp [_set_owner] at h; exact Or.inl h.1.symm
    · simp [_reset_owner] at h; exact Or.inl h.1.symm
    · exact Or.inr (Or.inl ⟨e, by simpa using h⟩)
    · simp [_set_log_base] at h; exact Or.inl h.1.symm
    · simp [_set_log_fd] at h; exact Or.inl h.1.symm
    · simp [_set_vring_num] at h; exact Or.inl h.1.symm
    · left
      simp [_set_vring_addr] at h
      split at h
      · split at h
        · simp at h; exact h.1.symm
        · cases h
      · cases h
    · exact Or.inr (Or.inr ⟨e, by simpa using h⟩)
    · left
      simp [_get_vring_base] at h
      split at h
      · split at h
        · split at h
          · simp at h; exact h.1.symm
          · cases h
        · cases h
      · cases h
    · left
      simp [_set_vring_kick] at h
      split at h
      · split at h
        · split at h
          · simp at h; exact h.1.symm
          · cases h
        · cases h
      · cases h
    · left
      simp [_set_vring_call] at h
      split at h
      · split at h
        · split at h
          · simp at h; exact h.1.symm
          · cases h
        · cases h
      · cases h
    · simp [_set_vring_err] at h; exact Or.inl h.1.symm
    · simp at h; exact Or.inl h.1.symm
  · cases h

theorem toInt32_eq_natCast (x i : Nat) (hx : x < 2 ^ 32) (h : toInt32 x = (i : Int)) :
    x = i := by
  unfold toInt32 at h
  have hm : x % 2 ^ 32 = x := Nat.mod_eq_of_lt hx
  rw [hm] at h
  split at h <;> omega

theorem serveAll_nregions :
    ∀ (msgs : List ServerMsg) (s0 s : VhostServer),
      s0.memory.nregions ≤ VHOST_MEMORY_MAX_NREGIONS →
      (∀ m ∈ msgs, m.fd_num ≤ VHOST_MEMORY_MAX_NREGIONS) →
      serveAll s0 msgs = some s →
      s.memory.nregions ≤ VHOST_MEMORY_MAX_NREGIONS := by
  intro msgs
  induction msgs with
  | nil =>
    intro s0 s h0 _ hrun
    simp only [serveAll, Option.some.injEq] at hrun
    subst hrun
    exact h0
  | cons m rest ih =>
    intro s0 s h0 hfd hrun
    simp only [serveAll] at hrun
    split at hrun
    · rename_i s1 msg1 r1 hstep
      refine ih s1 s ?_ (fun m' hm' => hfd m' (List.mem_cons_of_mem _ hm')) hrun
      rcases in_msg_server_returned _ _ _ _ _ hstep with h | ⟨_, h⟩ | ⟨_, h⟩
      · rw [h]; exact h0
      · have hb := (_set_mem_table_returned _ _ _ _ _ h).2.2
        exact Nat.le_trans hb (hfd m (List.mem_cons_self _ _))
      · rw [(_set_vring_base_returned _ _ _ _ _ h).1]; exact h0
    · cases hrun

theorem serveAll_vring_base (idx : Nat) :
    ∀ (msgs : List ServerMsg) (s0 s : VhostServer),
      s0.vring_base.length = 2 →
      (∀ m ∈ msgs, m.msg.state.index < 2 ^ 32) →
      (∀ m ∈ msgs, m.msg.request = VHOST_USER_SET_VRING_BASE → m.msg.state.index ≠ idx) →
      serveAll s0 msgs = some s →
      s.vring_base.length = 2 ∧ s.vring_base[idx]? = s0.vring_base[idx]? := by
  intro msgs
  induction msgs with
  | nil =>
    intro s0 s h0 _ _ hrun
    simp only [serveAll, Option.some.injEq] at hrun
    subst hrun
    exact ⟨h0, rfl⟩
  | cons m rest ih =>
    intro s0 s h0 h32 hno hrun
    simp only [serveAll] at hrun
    split at hrun
    · rename_i s1 msg1 r1 hstep
      have hstep1 : s1.vring_base.length = 2 ∧ s1.vring_base[idx]? = s0.vring_base[idx]? := by
        rcases in_msg_server_returned _ _ _ _ _ hstep with h | ⟨_, h⟩ | ⟨hreq, h⟩
        · rw [h]; exact ⟨h0, rfl⟩
        · rw [(_set_mem_table_returned _ _ _ _ _ h).1]; exact ⟨h0, rfl⟩
        · obtain ⟨_, i, hi, _, hset⟩ := _set_vring_base_returned _ _ _ _ _ h
          have hmi : m.msg.state.index = i :=
            toInt32_eq_natCast _ _ (h32 m (List.mem_cons_self _ _)) hi
          have hne : i ≠ idx := by
            rw [← hmi]; exact hno m (List.mem_cons_self _ _) hreq
          rw [hset]
          refine ⟨by simp [h0], ?_⟩
          simp [List.getElem?_set, hne]
      obtain ⟨hl, hv⟩ :=
        ih s1 s hstep1.1 (fun m' hm' => h32 m' (List.mem_cons_of_mem _ hm'))
          (fun m' hm' => hno m' (List.mem_cons_of_mem _ hm')) hrun
      exact ⟨hl, by rw [hv, hstep1.2]⟩
    · cases hrun

/-! ## Invariants of the server over message sequences -/

/-- C11, the code at the failing input: SET_VRING_BASE with the queue index
0xFFFFFFBE and the value 1000, with no attached descriptor, on a new server.
The index is read into `int idx` as -66, so the check `idx<2` passes and the
handler does not stop at its assertion; the store `vring_base[idx] = 1000`
leaves the array (the embedding reports the call as undefined).  Its byte
offset in `struct VhostServer`, 272 - 4 * 66 = 8, is the offset of
`memory.nregions`: the store overwrites the region count with 1000, above the
capacity `VHOST_MEMORY_MAX_NREGIONS`. -/
theorem set_vring_base_store_reaches_region_count :
    toInt32 0xFFFFFFBE = -66 ∧
    (vringStateMsg VHOST_USER_SET_VRING_BASE 0xFFFFFFBE 1000).fd_num ≤
      VHOST_MEMORY_MAX_NREGIONS ∧
    _set_vring_base new_vhost_server
        (vringStateMsg VHOST_USER_SET_VRING_BASE 0xFFFFFFBE 1000) ≠
      .aborted new_vhost_server (vringStateMsg VHOST_USER_SET_VRING_BASE 0xFFFFFFBE 1000) ∧
    in_msg_server new_vhost_server
        (vringStateMsg VHOST_USER_SET_VRING_BASE 0xFFFFFFBE 1000) = .undefined ∧
    offsetof_vring_base = 272 ∧
    addressof_vring_base (toInt32 0xFFFFFFBE) = offsetof_memory ∧
    vring_base_store new_vhost_server (toInt32 0xFFFFFFBE) 1000 =
      some { new_vhost_server with
        memory := { new_vhost_server.memory with nregions := 1000 } } ∧
    VHOST_MEMORY_MAX_NREGIONS < 1000 := by
  decide

/-- While every call of a message sequence returns in the embedding (no
assertion fails and no array is left), the region count stays within
`VHOST_MEMORY_MAX_NREGIONS`: starting from `new_vhost_server`, with at most
`VHOST_MEMORY_MAX_NREGIONS` attached descriptors per message.  A store of
`_set_vring_base` outside of `vring_base` is not such a call. -/
theorem region_count_within_capacity (msgs : List ServerMsg) (s : VhostServer)
    (hfd : ∀ m ∈ msgs, m.fd_num ≤ VHOST_MEMORY_MAX_NREGIONS)
    (hrun : serveAll new_vhost_server msgs = some s) :
    s.memory.nregions ≤ VHOST_MEMORY_MAX_NREGIONS :=
  serveAll_nregions msgs new_vhost_server s (by decide) hfd hrun

/-- An instance of `region_count_within_capacity`: a SET_MEM_TABLE, a
SET_VRING_BASE for queue 1, a second SET_MEM_TABLE that declares more regions
than it has descriptors, and a message of kind 15 all return, and the count
(1) is within the capacity. -/
theorem region_count_within_capacity_witness :
    serveAll new_vhost_server
        [memTableValidInvalid, vringStateMsg VHOST_USER_SET_VRING_BASE 1 7,
          memTableShortSkipped, blankMsg VHOST_USER_NET_SET_BACKEND] =
      some { serverOneRegion with vring_base := [0, 7] } ∧
    ({ serverOneRegion with vring_base := [0, 7] } : VhostServer).memory.nregions ≤
      VHOST_MEMORY_MAX_NREGIONS :=
  ⟨by decide,
    region_count_within_capacity
      [memTableValidInvalid, vringStateMsg VHOST_USER_SET_VRING_BASE 1 7,
        memTableShortSkipped, blankMsg VHOST_USER_NET_SET_BACKEND]
      { serverOneRegion with vring_base := [0, 7] } (by decide) (by decide)⟩

/-- C17: in the state built by `new_vhost_server` the region count is 0 and
GET_VRING_BASE replies 0 for each queue index in {0, 1}; and after any
sequence of accepted messages in which no SET_VRING_BASE has the queue index
`idx`, GET_VRING_BASE(idx) writes 0 into `state.num` and returns 1. -/
theorem get_vring_base_untouched_is_zero (msgs : List ServerMsg) (s : VhostServer)
    (getMsg : ServerMsg) (idx : Nat)
    (hidx : idx < 2)
    (h32 : ∀ m ∈ msgs, m.msg.state.index < 2 ^ 32)
    (hno : ∀ m ∈ msgs, m.msg.request = VHOST_USER_SET_VRING_BASE →
      m.msg.state.index ≠ idx)
    (hrun : serveAll new_vhost_server msgs = some s)
    (hget : getMsg.msg.request = VHOST_USER_GET_VRING_BASE)
    (hgi : getMsg.msg.state.index = idx) :
    new_vhost_server.memory.nregions = 0 ∧
    in_msg_server new_vhost_server getMsg =
      .returned new_vhost_server
        { getMsg with msg := { getMsg.msg with state := ⟨idx, 0⟩ } } 1 ∧
    in_msg_server s getMsg =
      .returned s { getMsg with msg := { getMsg.msg with state := ⟨idx, 0⟩ } } 1 := by
  subst hgi
  have key : ∀ t : VhostServer, t.vring_base.length = 2 →
      t.vring_base[getMsg.msg.state.index]? = some 0 →
      in_msg_server t getMsg =
        .returned t
          { getMsg with msg := { getMsg.msg with state := ⟨getMsg.msg.state.index, 0⟩ } }
          1 := by
    intro t hl hv
    obtain ⟨base, hb, h⟩ := _get_vring_base_returns t getMsg hl hidx
    rw [hv] at hb
    cases hb
    simp [in_msg_server, hget, VHOST_USER_GET_VRING_BASE, VHOST_USER_NONE,
      VHOST_USER_MAX, msg_handlers, h]
  have h0 : new_vhost_server.vring_base[getMsg.msg.state.index]? = some 0 := by
    have hc : getMsg.msg.state.index = 0 ∨ getMsg.msg.state.index = 1 := by omega
    rcases hc with e | e <;> rw [e] <;> rfl
  obtain ⟨hl, hv⟩ :=
    serveAll_vring_base getMsg.msg.state.index msgs new_vhost_server s rfl h32 hno hrun
  exact ⟨rfl, key new_vhost_server rfl h0, key s hl (by rw [hv, h0])⟩

/-- C17, witness: after a SET_MEM_TABLE and a SET_VRING_BASE for queue 1,
GET_VRING_BASE for the untouched queue 0 replies 0. -/
theorem get_vring_base_untouched_is_zero_witness :
    serveAll new_vhost_server
        [memTableValidInvalid, vringStateMsg VHOST_USER_SET_VRING_BASE 1 7] =
      some { serverOneRegion with vring_base := [0, 7] } ∧
    in_msg_server { serverOneRegion with vring_base := [0, 7] }
        (vringStateMsg VHOST_USER_GET_VRING_BASE 0 0x55) =
      .returned { serverOneRegion with vring_base := [0, 7] }
        (vringStateMsg VHOST_USER_GET_VRING_BASE 0 0) 1 :=
  ⟨by decide,
    (get_vring_base_untouched_is_zero
      [memTableValidInvalid, vringStateMsg VHOST_USER_SET_VRING_BASE 1 7]
      { serverOneRegion with vring_base := [0, 7] }
      (vringStateMsg VHOST_USER_GET_VRING_BASE 0 0x55) 0
      (by decide) (by decide) (by decide) (by decide) rfl rfl).2.2⟩

/-! ## The stub handlers -/

/-- C12, counterexample: a new server handles a SET_MEM_TABLE and a
SET_VRING_BASE(1, 7); RESET_OWNER then returns 0 and leaves the region count
at 1 and `vring_base[1]` at 7. -/
theorem reset_owner_clears_nothing :
    serveAll new_vhost_server
        [memTableValidInvalid, vringStateMsg VHOST_USER_SET_VRING_BASE 1 7] =
      some { serverOneRegion with vring_base := [0, 7] } ∧
    in_msg_server { serverOneRegion with vring_base := [0, 7] }
        (blankMsg VHOST_USER_RESET_OWNER) =
      .returned { serverOneRegion with vring_base := [0, 7] }
        (blankMsg VHOST_USER_RESET_OWNER) 0 ∧
    ({ serverOneRegion with vring_base := [0, 7] } : VhostServer).memory.nregions ≠ 0 ∧
    ({ serverOneRegion with vring_base := [0, 7] } : VhostServer).vring_base[1]? ≠ some 0 := by
  decide

/-- C12, amended: for every server state, `in_msg_server` on RESET_OWNER
returns 0 (no reply owed) and leaves the server state, region table and ring
bases included, and the message exactly as they were. -/
theorem reset_owner_changes_nothing (s : VhostServer) (msg : ServerMsg)
    (hreq : msg.msg.request = VHOST_USER_RESET_OWNER) :
    in_msg_server s msg = .returned s msg 0 := by
  simp [in_msg_server, hreq, VHOST_USER_RESET_OWNER, VHOST_USER_NONE, VHOST_USER_MAX,
    msg_handlers, _reset_owner]

/-- C12, witness: RESET_OWNER on the server with three regions and the ring
bases 3 and 4. -/
theorem reset_owner_changes_nothing_witness :
    in_msg_server serverThreeRegions (blankMsg VHOST_USER_RESET_OWNER) =
      .returned serverThreeRegions (blankMsg VHOST_USER_RESET_OWNER) 0 :=
  reset_owner_changes_nothing serverThreeRegions (blankMsg VHOST_USER_RESET_OWNER) rfl

/-- C13, counterexample: in the one-region table {user 0x1000, size 0x1000,
mapped at 0x7f0000} the address 0x1040 is translated to 0x7f0040, but
SET_VRING_ADDR(0, 0x1040, 0x1800, 0x1c00) returns the server unchanged; and no
reading of the server after the call gives the translated descriptor-table
address, since the server after the call is the same for every `desc`. -/
theorem set_vring_addr_keeps_no_address :
    _map_user_addr serverMappedRegion 0x1040 = some 0x7f0040 ∧
    _set_vring_addr serverMappedRegion (vringAddrAt 0 0x1040 0x1800 0x1c00) =
      .returned serverMappedRegion (vringAddrAt 0 0x1040 0x1800 0x1c00) 0 ∧
    ¬ ∃ descriptorTableAddr : VhostServer → Option Int,
      ∀ desc s' msg' r,
        _set_vring_addr serverMappedRegion (vringAddrAt 0 desc 0x1800 0x1c00) =
          .returned s' msg' r →
        descriptorTableAddr s' = _map_user_addr serverMappedRegion desc := by
  refine ⟨by decide, by decide, ?_⟩
  rintro ⟨f, hf⟩
  have h1 := hf 0x1040 serverMappedRegion (vringAddrAt 0 0x1040 0x1800 0x1c00) 0 (by decide)
  have h2 := hf 0x1080 serverMappedRegion (vringAddrAt 0 0x1080 0x1800 0x1c00) 0 (by decide)
  rw [h1] at h2
  revert h2
  decide

/-- C13, amended: for every server state whose region count is within the
array, every queue index in {0, 1} and every SET_VRING_ADDR(idx, desc, avail,
used), `_set_vring_addr` calls `_map_user_addr` on `desc`, `avail` and `used`
(each call yields a value), discards the three results, returns 0 and leaves
the server state and the message as they were. -/
theorem set_vring_addr_discards (s : VhostServer) (msg : ServerMsg)
    (hb : s.memory.nregions ≤ s.memory.regions.length)
    (hidx : msg.msg.addr.index < 2) :
    (∃ d a u, _map_user_addr s msg.msg.addr.desc_user_addr = some d ∧
      _map_user_addr s msg.msg.addr.avail_user_addr = some a ∧
      _map_user_addr s msg.msg.addr.used_user_addr = some u) ∧
    _set_vring_addr s msg = .returned s msg 0 := by
  obtain ⟨d, hd⟩ := _map_user_addr_isSome s msg.msg.addr.desc_user_addr hb
  obtain ⟨a, ha⟩ := _map_user_addr_isSome s msg.msg.addr.avail_user_addr hb
  obtain ⟨u, hu⟩ := _map_user_addr_isSome s msg.msg.addr.used_user_addr hb
  exact ⟨⟨d, a, u, hd, ha, hu⟩, _set_vring_addr_returns s msg hb hidx⟩

/-- C13, witness: SET_VRING_ADDR(0, 0x1040, 0x1800, 0x1c00) on the one-region
table {user 0x1000, size 0x1000, mapped at 0x7f0000}. -/
theorem set_vring_addr_discards_witness :
    (∃ d a u, _map_user_addr serverMappedRegion 0x1040 = some d ∧
      _map_user_addr serverMappedRegion 0x1800 = some a ∧
      _map_user_addr serverMappedRegion 0x1c00 = some u) ∧
    _set_vring_addr serverMappedRegion (vringAddrAt 0 0x1040 0x1800 0x1c00) =
      .returned serverMappedRegion (vringAddrAt 0 0x1040 0x1800 0x1c00) 0 :=
  set_vring_addr_discards serverMappedRegion (vringAddrAt 0 0x1040 0x1800 0x1c00)
    (by decide) (by decide)

/-- C14, counterexample: SET_VRING_KICK(1, 5) and then SET_VRING_KICK(1, 6)
both return the new server unchanged, and likewise for SET_VRING_CALL; no
reading of the server after the second message gives its descriptor, since
the server after the call is the same for every descriptor. -/
theorem set_vring_kick_keeps_no_descriptor :
    in_msg_server new_vhost_server (vringFileMsg VHOST_USER_SET_VRING_KICK 1 5) =
      .returned new_vhost_server (vringFileMsg VHOST_USER_SET_VRING_KICK 1 5) 0 ∧
    in_msg_server new_vhost_server (vringFileMsg VHOST_USER_SET_VRING_KICK 1 6) =
      .returned new_vhost_server (vringFileMsg VHOST_USER_SET_VRING_KICK 1 6) 0 ∧
    in_msg_server new_vhost_server (vringFileMsg VHOST_USER_SET_VRING_CALL 1 6) =
      .returned new_vhost_server (vringFileMsg VHOST_USER_SET_VRING_CALL 1 6) 0 ∧
    ¬ ∃ kickDescriptor : VhostServer → Option Int,
      ∀ (fd : Int) s' msg' r,
        in_msg_server new_vhost_server (vringFileMsg VHOST_USER_SET_VRING_KICK 1 fd) =
          .returned s' msg' r →
        kickDescriptor s' = some fd := by
  refine ⟨by decide, by decide, by decide, ?_⟩
  rintro ⟨f, hf⟩
  have h1 := hf 5 new_vhost_server (vringFileMsg VHOST_USER_SET_VRING_KICK 1 5) 0 (by decide)
  have h2 := hf 6 new_vhost_server (vringFileMsg VHOST_USER_SET_VRING_KICK 1 6) 0 (by decide)
  rw [h1] at h2
  revert h2
  decide

/-- C14, amended: for every server state, every queue index in {0, 1} and
all descriptors A and B, SET_VRING_KICK(idx, A) and then SET_VRING_KICK(idx,
B), each with exactly one attached descriptor, both return 0 and leave the
server state as it was before the first message: the descriptor is read and
dropped.  The same holds for SET_VRING_CALL. -/
theorem set_vring_kick_call_twice (s : VhostServer) (msgA msgB : ServerMsg)
    (hreqA : msgA.msg.request = VHOST_USER_SET_VRING_KICK ∨
      msgA.msg.request = VHOST_USER_SET_VRING_CALL)
    (hreqB : msgB.msg.request = msgA.msg.request)
    (hidxA : msgA.msg.file.index < 2)
    (hidxB : msgB.msg.file.index = msgA.msg.file.index)
    (hfdA : msgA.fd_num = 1 ∧ msgA.fds.length = VHOST_MEMORY_MAX_NREGIONS)
    (hfdB : msgB.fd_num = 1 ∧ msgB.fds.length = VHOST_MEMORY_MAX_NREGIONS) :
    ∃ s1, in_msg_server s msgA = .returned s1 msgA 0 ∧
      in_msg_server s1 msgB = .returned s1 msgB 0 ∧ s1 = s := by
  have hidxB2 : msgB.msg.file.index < 2 := by rw [hidxB]; exact hidxA
  refine ⟨s, ?_, ?_, rfl⟩
  · rcases hreqA with e | e
    · simp [in_msg_server, e, VHOST_USER_SET_VRING_KICK, VHOST_USER_NONE, VHOST_USER_MAX,
        msg_handlers, _set_vring_kick_returns s msgA hfdA.2 hidxA hfdA.1]
    · simp [in_msg_server, e, VHOST_USER_SET_VRING_CALL, VHOST_USER_NONE, VHOST_USER_MAX,
        msg_handlers, _set_vring_call_returns s msgA hfdA.2 hidxA hfdA.1]
  · rcases hreqA with e | e
    · simp [in_msg_server, hreqB, e, VHOST_USER_SET_VRING_KICK, VHOST_USER_NONE,
        VHOST_USER_MAX, msg_handlers, _set_vring_kick_returns s msgB hfdB.2 hidxB2 hfdB.1]
    · simp [in_msg_server, hreqB, e, VHOST_USER_SET_VRING_CALL, VHOST_USER_NONE,
        VHOST_USER_MAX, msg_handlers, _set_vring_call_returns s msgB hfdB.2 hidxB2 hfdB.1]

/-- C14, witness: SET_VRING_KICK(1, 5) and then SET_VRING_KICK(1, 6) on the
server with three regions. -/
theorem set_vring_kick_call_twice_witness :
    ∃ s1,
      in_msg_server serverThreeRegions (vringFileMsg VHOST_USER_SET_VRING_KICK 1 5) =
        .returned s1 (vringFileMsg VHOST_USER_SET_VRING_KICK 1 5) 0 ∧
      in_msg_server s1 (vringFileMsg VHOST_USER_SET_VRING_KICK 1 6) =
        .returned s1 (vringFileMsg VHOST_USER_SET_VRING_KICK 1 6) 0 ∧
      s1 = serverThreeRegions :=
  set_vring_kick_call_twice serverThreeRegions
    (vringFileMsg VHOST_USER_SET_VRING_KICK 1 5) (vringFileMsg VHOST_USER_SET_VRING_KICK 1 6)
    (Or.inl rfl) rfl (by decide) rfl (by decide) (by decide)

/-- C15: for every server state and every SET_VRING_KICK or SET_VRING_CALL
message with a queue index in {0, 1}, `in_msg_server` returns 0 with the
server unchanged when exactly one descriptor is attached (`fd_num = 1`), and
with any other descriptor count the assertion `fd_num == 1` fails with the
server and the message unchanged. -/
theorem vring_kick_call_descriptor_count (s : VhostServer) (msg : ServerMsg)
    (hreq : msg.msg.request = VHOST_USER_SET_VRING_KICK ∨
      msg.msg.request = VHOST_USER_SET_VRING_CALL)
    (hidx : msg.msg.file.index < 2)
    (hfds : msg.fds.length = VHOST_MEMORY_MAX_NREGIONS) :
    in_msg_server s msg =
      if msg.fd_num = 1 then .returned s msg 0 else .aborted s msg := by
  have hi : toInt32 msg.msg.file.index < 2 := by
    rw [toInt32_of_lt _ (by omega)]
    omega
  by_cases hnum : msg.fd_num = 1
  · rcases hreq with e | e
    · simp [in_msg_server, e, VHOST_USER_SET_VRING_KICK, VHOST_USER_NONE, VHOST_USER_MAX,
        msg_handlers, hnum, _set_vring_kick_returns s msg hfds hidx hnum]
    · simp [in_msg_server, e, VHOST_USER_SET_VRING_CALL, VHOST_USER_NONE, VHOST_USER_MAX,
        msg_handlers, hnum, _set_vring_call_returns s msg hfds hidx hnum]
  · rcases hreq with e | e
    · simp [in_msg_server, e, VHOST_USER_SET_VRING_KICK, VHOST_USER_NONE, VHOST_USER_MAX,
        msg_handlers, hnum, _set_vring_kick, hi]
    · simp [in_msg_server, e, VHOST_USER_SET_VRING_CALL, VHOST_USER_NONE, VHOST_USER_MAX,
        msg_handlers, hnum, _set_vring_call, hi]

/-- C15, witness: SET_VRING_CALL for queue 0 with two attached descriptors
stops at the assertion, the server with three regions unchanged. -/
theorem vring_kick_call_descriptor_count_witness :
    in_msg_server serverThreeRegions
        { vringFileMsg VHOST_USER_SET_VRING_CALL 0 5 with fd_num := 2 } =
      .aborted serverThreeRegions
        { vringFileMsg VHOST_USER_SET_VRING_CALL 0 5 with fd_num := 2 } :=
  vring_kick_call_descriptor_count serverThreeRegions
    { vringFileMsg VHOST_USER_SET_VRING_CALL 0 5 with fd_num := 2 }
    (Or.inr rfl) (by decide) (by decide)

/-! ## Frame of the ring-base handlers -/

/-- C18: for every server state, queue index `idx` in {0, 1} and value `v`,
SET_VRING_BASE(idx, v) changes `vring_base[idx]` only: `vring_base[1 - idx]`
and the whole region table (count and every stored region) are unchanged; and
GET_VRING_BASE(idx) leaves the server state as it was and alters only the
field `state.num` of the message. -/
theorem vring_base_frame (s : VhostServer) (setMsg getMsg : ServerMsg) (idx v : Nat)
    (hs : s.vring_base.length = 2) (hidx : idx < 2)
    (hset : setMsg.msg.request = VHOST_USER_SET_VRING_BASE)
    (hsetp : setMsg.msg.state = ⟨idx, v⟩)
    (hget : getMsg.msg.request = VHOST_USER_GET_VRING_BASE)
    (hgetp : getMsg.msg.state.index = idx) :
    (∃ s1, in_msg_server s setMsg = .returned s1 setMsg 0 ∧
      s1.vring_base[idx]? = some v ∧
      s1.vring_base[1 - idx]? = s.vring_base[1 - idx]? ∧
      s1.vring_base.length = 2 ∧
      s1.memory = s.memory) ∧
    (∃ base, s.vring_base[idx]? = some base ∧
      in_msg_server s getMsg =
        .returned s
          { getMsg with
            msg := { getMsg.msg with state := { getMsg.msg.state with num := base } } }
          1) := by
  have hsi : setMsg.msg.state.index = idx := by rw [hsetp]
  have hsn : setMsg.msg.state.num = v := by rw [hsetp]
  constructor
  · refine ⟨{ s with vring_base := s.vring_base.set idx v }, ?_, ?_, ?_, ?_, rfl⟩
    · have h := _set_vring_base_returns s setMsg hs (by omega)
      rw [hsi, hsn] at h
      simp [in_msg_server, hset, VHOST_USER_SET_VRING_BASE, VHOST_USER_NONE,
        VHOST_USER_MAX, msg_handlers, h]
    · have hlt : idx < s.vring_base.length := by omega
      simp [List.getElem?_set, hlt]
    · have hne : idx ≠ 1 - idx := by omega
      simp [List.getElem?_set, hne]
    · simp [hs]
  · obtain ⟨base, hb, h⟩ := _get_vring_base_returns s getMsg hs (by omega)
    rw [hgetp] at hb
    exact ⟨base, hb, by
      simp [in_msg_server, hget, VHOST_USER_GET_VRING_BASE, VHOST_USER_NONE,
        VHOST_USER_MAX, msg_handlers, h]⟩

/-- C18, witness: SET_VRING_BASE(0, 9) and GET_VRING_BASE(0) on the server
with three regions and the ring bases 3 and 4. -/
theorem vring_base_frame_witness :
    (∃ s1,
      in_msg_server serverThreeRegions (vringStateMsg VHOST_USER_SET_VRING_BASE 0 9) =
        .returned s1 (vringStateMsg VHOST_USER_SET_VRING_BASE 0 9) 0 ∧
      s1.vring_base[0]? = some 9 ∧
      s1.vring_base[1 - 0]? = serverThreeRegions.vring_base[1 - 0]? ∧
      s1.vring_base.length = 2 ∧
      s1.memory = serverThreeRegions.memory) ∧
    (∃ base, serverThreeRegions.vring_base[0]? = some base ∧
      in_msg_server serverThreeRegions (vringStateMsg VHOST_USER_GET_VRING_BASE 0 0x55) =
        .returned serverThreeRegions
          (vringStateMsg VHOST_USER_GET_VRING_BASE 0 base) 1) :=
  vring_base_frame serverThreeRegions (vringStateMsg VHOST_USER_SET_VRING_BASE 0 9)
    (vringStateMsg VHOST_USER_GET_VRING_BASE 0 0x55) 0 9 (by decide) (by decide)
    rfl rfl rfl rfl

/-! ## Wrap-around in `_map_user_addr` -/

theorem toInt64_emod (x : Nat) :
    toInt64 x % 2 ^ 64 = ((x % 2 ^ 64 : Nat) : Int) := by
  unfold toInt64
  split <;> omega

theorem _map_user_addr_loop_skip (s : VhostServer) (a : Nat) :
    ∀ (m k idx : Nat),
      (∀ j, idx ≤ j → j < idx + m →
        ∃ r, s.memory.regions[j]? = some r ∧ ¬ regionHit r a) →
      _map_user_addr_loop s a (m + k) idx = _map_user_addr_loop s a k (idx + m) := by
  intro m
  induction m with
  | zero => intro k idx _; simp
  | succ m ih =>
    intro k idx h
    obtain ⟨r, hr, hno⟩ := h idx (Nat.le_refl _) (by omega)
    have hrec := ih k (idx + 1) (fun j hj1 hj2 => h j (by omega) (by omega))
    have e1 : m + 1 + k = (m + k) + 1 := by omega
    have e2 : idx + (m + 1) = idx + 1 + m := by omega
    rw [e1, e2, ← hrec]
    simp [_map_user_addr_loop, hr, hno]

/-- C19: `_map_user_addr` works in 64-bit wrap-around arithmetic.  Let
`region` be the region in slot `i` of the counted range, with no match in the
slots before it.  If `userspace_addr + memory_size` is at least `2 ^ 64`, the
upper bound of the test wraps below `userspace_addr`, no address `a` matches
the region, and the scan goes on with the slots after `i` (and ends in 0 when
none of them matches).  If the end does not wrap and `a` lies in the region,
the returned `int64_t` is the 64-bit value
`(mmap_addr + a - userspace_addr) mod 2 ^ 64`. -/
theorem map_user_addr_wrap_around (s : VhostServer) (a i : Nat)
    (region : VhostServerMemoryRegion)
    (hi : i < s.memory.nregions)
    (hreg : s.memory.regions[i]? = some region)
    (hua : region.userspace_addr < 2 ^ 64) (hsz : region.memory_size < 2 ^ 64)
    (hearlier : ∀ j, j < i → ∀ r, s.memory.regions[j]? = some r →
      ¬ (r.userspace_addr ≤ a ∧ a < (r.userspace_addr + r.memory_size) % 2 ^ 64)) :
    (2 ^ 64 ≤ region.userspace_addr + region.memory_size →
      (region.userspace_addr + region.memory_size) % 2 ^ 64 < region.userspace_addr ∧
      ¬ (region.userspace_addr ≤ a ∧
        a < (region.userspace_addr + region.memory_size) % 2 ^ 64) ∧
      _map_user_addr s a =
        (_map_user_addr_loop s a (s.memory.nregions - (i + 1)) (i + 1)).map toInt64) ∧
    (region.userspace_addr + region.memory_size < 2 ^ 64 →
      region.userspace_addr ≤ a → a < region.userspace_addr + region.memory_size →
      ∃ r, _map_user_addr s a = some r ∧
        r = toInt64 ((region.mmap_addr + a - region.userspace_addr) % 2 ^ 64) ∧
        r % 2 ^ 64 =
          (((region.mmap_addr + a - region.userspace_addr) % 2 ^ 64 : Nat) : Int)) := by
  have hbound : i < s.memory.regions.length :=
    (List.getElem?_eq_some.mp hreg).1
  constructor
  · intro hwrap
    have hlt : (region.userspace_addr + region.memory_size) % 2 ^ 64 <
        region.userspace_addr := by omega
    have hno : ¬ regionHit region a := by
      unfold regionHit u64add
      omega
    refine ⟨hlt, hno, ?_⟩
    have hskip := _map_user_addr_loop_skip s a (i + 1) (s.memory.nregions - (i + 1)) 0
      (fun j _ hj => by
        rcases Nat.lt_or_ge j i with hji | hji
        · have hjb : j < s.memory.regions.length := by omega
          exact ⟨s.memory.regions[j], List.getElem?_eq_getElem hjb,
            hearlier j hji _ (List.getElem?_eq_getElem hjb)⟩
        · have hji' : j = i := by omega
          subst hji'
          exact ⟨region, hreg, hno⟩)
    have e : i + 1 + (s.memory.nregions - (i + 1)) = s.memory.nregions := by omega
    rw [e, Nat.zero_add] at hskip
    rw [_map_user_addr, hskip]
  · intro hnowrap hle hlt
    have hmod : (region.userspace_addr + region.memory_size) % 2 ^ 64 =
        region.userspace_addr + region.memory_size := Nat.mod_eq_of_lt hnowrap
    have hhit : regionHit region a := by
      unfold regionHit u64add
      rw [hmod]
      exact ⟨hle, hlt⟩
    have hloop := _map_user_addr_loop_hit s a s.memory.nregions 0 i region
      (Nat.zero_le _) (by omega) hreg hhit
      (fun j _ hj r hr => hearlier j hj r hr)
    have hval : regionMap region a =
        (region.mmap_addr + a - region.userspace_addr) % 2 ^ 64 := by
      rw [regionMap_eq region a hle]
      congr 1
      omega
    refine ⟨toInt64 ((region.mmap_addr + a - region.userspace_addr) % 2 ^ 64), ?_, rfl, ?_⟩
    · rw [_map_user_addr, hloop, hval]
      rfl
    · rw [toInt64_emod, Nat.mod_mod]

/-- C19, witness: the region that ends at `2 ^ 64` matches no address, and
the scan ends in 0; in the table {user 0x1000, size 0x1000, mapped at
`2 ^ 64 - 0x10`} the address 0x1040 is translated to 0x30. -/
theorem map_user_addr_wrap_around_witness :
    ((topRegion.userspace_addr + topRegion.memory_size) % 2 ^ 64 <
        topRegion.userspace_addr ∧
      ¬ (topRegion.userspace_addr ≤ 2 ^ 64 - 1 ∧
        2 ^ 64 - 1 < (topRegion.userspace_addr + topRegion.memory_size) % 2 ^ 64) ∧
      _map_user_addr serverTopRegion (2 ^ 64 - 1) =
        (_map_user_addr_loop serverTopRegion (2 ^ 64 - 1)
          (serverTopRegion.memory.nregions - (0 + 1)) (0 + 1)).map toInt64) ∧
    (∃ r, _map_user_addr serverHighMap 0x1040 = some r ∧
      r = toInt64 ((2 ^ 64 - 0x10 + 0x1040 - 0x1000) % 2 ^ 64) ∧
      r % 2 ^ 64 = (((2 ^ 64 - 0x10 + 0x1040 - 0x1000) % 2 ^ 64 : Nat) : Int)) :=
  ⟨(map_user_addr_wrap_around serverTopRegion (2 ^ 64 - 1) 0 topRegion
      (by decide) rfl (by decide) (by decide)
      (fun j hj => absurd hj (Nat.not_lt_zero j))).1 (by decide),
    (map_user_addr_wrap_around serverHighMap 0x1040 0
      ⟨0x2000, 0x1000, 0x1000, 2 ^ 64 - 0x10⟩
      (by decide) rfl (by decide) (by decide)
      (fun j hj => absurd hj (Nat.not_lt_zero j))).2 (by decide) (by decide) (by decide)⟩

/-! ## SET_MEM_TABLE with fewer descriptors than listed regions -/

theorem _set_mem_table_loop_accepts (msg : ServerMsg) :
    ∀ (k idx : Nat) (s : VhostServer),
      idx + k ≤ msg.fds.length →
      idx + k ≤ msg.msg.memory.regions.length →
      idx + k ≤ s.memory.regions.length →
      (∀ j fd, idx ≤ j → j < idx + k → msg.fds[j]? = some fd → fd > 0 → j < msg.fd_num) →
      s.memory.nregions + k < 2 ^ 32 →
      ∃ s', _set_mem_table_loop msg k idx s = .returned s' msg 0 ∧
        s'.memory.nregions =
          s.memory.nregions +
            ((msg.fds.drop idx).take k).countP (fun fd => decide (fd > 0)) := by
  intro k
  induction k with
  | zero =>
    intro idx s _ _ _ _ _
    exact ⟨s, rfl, by simp⟩
  | succ k ih =>
    intro idx s hf hm hr hok hc
    have hfi : idx < msg.fds.length := by omega
    have hmi : idx < msg.msg.memory.regions.length := by omega
    have hri : idx < s.memory.regions.length := by omega
    have hfd : msg.fds[idx]? = some msg.fds[idx] := List.getElem?_eq_getElem hfi
    have hsrc : msg.msg.memory.regions[idx]? = some msg.msg.memory.regions[idx] :=
      List.getElem?_eq_getElem hmi
    have hreg : s.memory.regions[idx]? = some s.memory.regions[idx] :=
      List.getElem?_eq_getElem hri
    have hdrop : msg.fds.drop idx = msg.fds[idx] :: msg.fds.drop (idx + 1) :=
      List.drop_eq_getElem_cons hfi
    have hok' : ∀ j fd, idx + 1 ≤ j → j < idx + 1 + k → msg.fds[j]? = some fd → fd > 0 →
        j < msg.fd_num := fun j fd h1 h2 => hok j fd (by omega) (by omega)
    by_cases hv : msg.fds[idx] > 0
    · have hlt : idx < msg.fd_num := hok idx _ (Nat.le_refl _) (by omega) hfd hv
      have hmod : (s.memory.nregions + 1) % 2 ^ 32 = s.memory.nregions + 1 :=
        Nat.mod_eq_of_lt (by omega)
      obtain ⟨s', hs', hcnt⟩ :=
        ih (idx + 1)
          { s with
            memory :=
              { nregions := (s.memory.nregions + 1) % 2 ^ 32
                regions := s.memory.regions.set idx
                  ⟨msg.msg.memory.regions[idx].guest_phys_addr,
                    msg.msg.memory.regions[idx].memory_size,
                    msg.msg.memory.regions[idx].userspace_addr, 0⟩ } }
          (by omega) (by omega) (by simp; omega) hok' (by simp [hmod]; omega)
      refine ⟨s', ?_, ?_⟩
      · simpa [_set_mem_table_loop, hfd, hsrc, hreg, hv, hlt] using hs'
      · rw [hcnt, hdrop, List.take_succ_cons, List.countP_cons]
        have hd : decide (msg.fds[idx] > 0) = true := decide_eq_true hv
        simp only [hmod, hd, if_true]
        omega
    · obtain ⟨s', hs', hcnt⟩ :=
        ih (idx + 1) s (by omega) (by omega) (by omega) hok' (by omega)
      refine ⟨s', ?_, ?_⟩
      · simp [_set_mem_table_loop, hfd, hv, hs']
      · rw [hcnt, hdrop, List.take_succ_cons, List.countP_cons]
        have hd : decide (msg.fds[idx] > 0) = false := decide_eq_false hv
        simp only [hd]
        simp

theorem _set_mem_table_loop_aborts (msg : ServerMsg) (i0 : Nat) (fd0 : Int)
    (src : VhostUserMemoryRegion) (old : VhostServerMemoryRegion)
    (hfd0 : msg.fds[i0]? = some fd0) (hpos : fd0 > 0) (hnum : msg.fd_num ≤ i0)
    (hsrc0 : msg.msg.memory.regions[i0]? = some src) :
    ∀ (k idx : Nat) (s : VhostServer),
      idx ≤ i0 → i0 < idx + k →
      idx + k ≤ msg.fds.length →
      idx + k ≤ msg.msg.memory.regions.length →
      idx + k ≤ s.memory.regions.length →
      s.memory.regions[i0]? = some old →
      (∀ j fd, idx ≤ j → j < i0 → msg.fds[j]? = some fd → fd > 0 → j < msg.fd_num) →
      s.memory.nregions + k < 2 ^ 32 →
      ∃ s', _set_mem_table_loop msg k idx s = .aborted s' msg ∧
        s'.vring_base = s.vring_base ∧
        s'.memory.nregions =
          s.memory.nregions +
            ((msg.fds.drop idx).take (i0 - idx)).countP (fun fd => decide (fd > 0)) ∧
        s'.memory.regions[i0]? =
          some ⟨src.guest_phys_addr, src.memory_size, src.userspace_addr, old.mmap_addr⟩ := by
  intro k
  induction k with
  | zero => intro idx s h1 h2; omega
  | succ k ih =>
    intro idx s h1 h2 hf hm hr hold hok hc
    have hfi : idx < msg.fds.length := by omega
    have hmi : idx < msg.msg.memory.regions.length := by omega
    have hri : idx < s.memory.regions.length := by omega
    have hfd : msg.fds[idx]? = some msg.fds[idx] := List.getElem?_eq_getElem hfi
    have hsrc : msg.msg.memory.regions[idx]? = some msg.msg.memory.regions[idx] :=
      List.getElem?_eq_getElem hmi
    have hreg : s.memory.regions[idx]? = some s.memory.regions[idx] :=
      List.getElem?_eq_getElem hri
    rcases Nat.eq_or_lt_of_le h1 with heq | hlt0
    · subst heq
      rw [hfd] at hfd0
      cases hfd0
      rw [hsrc] at hsrc0
      cases hsrc0
      rw [hreg] at hold
      cases hold
      have hnlt : ¬ idx < msg.fd_num := by omega
      refine ⟨{ s with
          memory := { s.memory with
            regions := s.memory.regions.set idx
              ⟨msg.msg.memory.regions[idx].guest_phys_addr,
                msg.msg.memory.regions[idx].memory_size,
                msg.msg.memory.regions[idx].userspace_addr,
                s.memory.regions[idx].mmap_addr⟩ } }, ?_, rfl, ?_, ?_⟩
      · simp [_set_mem_table_loop, hfd, hsrc, hreg, hpos, hnlt]
      · simp
      · simp [List.getElem?_set, hri]
    · have hdrop : msg.fds.drop idx = msg.fds[idx] :: msg.fds.drop (idx + 1) :=
        List.drop_eq_getElem_cons hfi
      have hsub : i0 - idx = (i0 - (idx + 1)) + 1 := by omega
      have hok' : ∀ j fd, idx + 1 ≤ j → j < i0 → msg.fds[j]? = some fd → fd > 0 →
          j < msg.fd_num := fun j fd h1 h2 => hok j fd (by omega) h2
      by_cases hv : msg.fds[idx] > 0
      · have hlt : idx < msg.fd_num := hok idx _ (Nat.le_refl _) hlt0 hfd hv
        have hmod : (s.memory.nregions + 1) % 2 ^ 32 = s.memory.nregions + 1 :=
          Nat.mod_eq_of_lt (by omega)
        have hne : idx ≠ i0 := by omega
        obtain ⟨s', hs', hvb, hcnt, hslot⟩ :=
          ih (idx + 1)
            { s with
              memory :=
                { nregions := (s.memory.nregions + 1) % 2 ^ 32
                  regions := s.memory.regions.set idx
                    ⟨msg.msg.memory.regions[idx].guest_phys_addr,
                      msg.msg.memory.regions[idx].memory_size,
                      msg.msg.memory.regions[idx].userspace_addr, 0⟩ } }
            (by omega) (by omega) (by omega) (by omega) (by simp; omega)
            (by simp [List.getElem?_set, hne, hold]) hok' (by simp [hmod]; omega)
        refine ⟨s', ?_, by simpa using hvb, ?_, hslot⟩
        · simpa [_set_mem_table_loop, hfd, hsrc, hreg, hv, hlt] using hs'
        · rw [hcnt, hdrop, hsub, List.take_succ_cons, List.countP_cons]
          have hd : decide (msg.fds[idx] > 0) = true := decide_eq_true hv
          simp only [hmod, hd, if_true]
          omega
      · obtain ⟨s', hs', hvb, hcnt, hslot⟩ :=
          ih (idx + 1) s (by omega) (by omega) (by omega) (by omega) (by omega)
            hold hok' (by omega)
        refine ⟨s', ?_, hvb, ?_, hslot⟩
        · simp [_set_mem_table_loop, hfd, hv, hs']
        · rw [hcnt, hdrop, hsub, List.take_succ_cons, List.countP_cons]
          have hd : decide (msg.fds[idx] > 0) = false := decide_eq_false hv
          simp only [hd]
          simp

/-- C16, counterexample: on the server with three regions, a SET_MEM_TABLE
that lists two regions with one attached descriptor is accepted when the slot
of entry 1 holds -1 (it returns 0 and the table is replaced by entry 0 alone);
when that slot holds the positive value 9 the assertion `idx < fd_num` stops
the handler, but only after the count was reset and entry 0 installed and the
address fields of entry 1 written to slot 1: the table is not the one from
before the message. -/
theorem set_mem_table_mismatch_not_atomic :
    (memTableShortSkipped.msg.memory.nregions > memTableShortSkipped.fd_num ∧
      _set_mem_table serverThreeRegions memTableShortSkipped =
        .returned
          { memory :=
              { nregions := 1
                regions := [⟨0x2000, 0x1000, 0x1000, 0⟩, ⟨0xa000, 0x100, 0xa000, 0⟩,
                  ⟨0xb000, 0x100, 0xb000, 0⟩, ⟨0, 0, 0, 0⟩, ⟨0, 0, 0, 0⟩, ⟨0, 0, 0, 0⟩,
                  ⟨0, 0, 0, 0⟩, ⟨0, 0, 0, 0⟩] }
            vring_base := [3, 4] }
          memTableShortSkipped 0) ∧
    (memTableShortStale.msg.memory.nregions > memTableShortStale.fd_num ∧
      _set_mem_table serverThreeRegions memTableShortStale =
        .aborted
          { memory :=
              { nregions := 1
                regions := [⟨0x2000, 0x1000, 0x1000, 0⟩, ⟨0x3000, 0x1000, 0x2000, 0⟩,
                  ⟨0xb000, 0x100, 0xb000, 0⟩, ⟨0, 0, 0, 0⟩, ⟨0, 0, 0, 0⟩, ⟨0, 0, 0, 0⟩,
                  ⟨0, 0, 0, 0⟩, ⟨0, 0, 0, 0⟩] }
            vring_base := [3, 4] }
          memTableShortStale ∧
      serverThreeRegions.memory.nregions = 3 ∧
      serverThreeRegions.memory.regions[1]? = some ⟨0xa000, 0x100, 0xa000, 0⟩) := by
  decide

/-- C16, amended: take a SET_MEM_TABLE message that lists at most
`VHOST_MEMORY_MAX_NREGIONS` regions.  If `i0` is the first listed index at or
above `fd_num` whose descriptor slot holds a positive value, the assertion
`idx < fd_num` stops `_set_mem_table` at `i0`, and not atomically: the count
has been reset and is the number of valid entries before `i0`, and slot `i0`
already carries the three address fields of entry `i0`.  If no listed index
at or above `fd_num` holds a positive value, the message is accepted: the
handler returns 0 and the count is the number of valid listed entries. -/
theorem set_mem_table_descriptor_mismatch (s : VhostServer) (msg : ServerMsg)
    (hs : s.memory.regions.length = VHOST_MEMORY_MAX_NREGIONS)
    (hm : msg.Shaped)
    (hn : msg.msg.memory.nregions ≤ VHOST_MEMORY_MAX_NREGIONS) :
    (∀ i0 fd0 src old,
      i0 < msg.msg.memory.nregions → msg.fd_num ≤ i0 →
      msg.fds[i0]? = some fd0 → fd0 > 0 →
      (∀ j fd, msg.fd_num ≤ j → j < i0 → msg.fds[j]? = some fd → ¬ fd > 0) →
      msg.msg.memory.regions[i0]? = some src →
      s.memory.regions[i0]? = some old →
      ∃ s', _set_mem_table s msg = .aborted s' msg ∧
        s'.memory.nregions = (msg.fds.take i0).countP (fun fd => decide (fd > 0)) ∧
        s'.memory.regions[i0]? =
          some ⟨src.guest_phys_addr, src.memory_size, src.userspace_addr,
            old.mmap_addr⟩) ∧
    ((∀ j fd, msg.fd_num ≤ j → j < msg.msg.memory.nregions →
        msg.fds[j]? = some fd → ¬ fd > 0) →
      ∃ s', _set_mem_table s msg = .returned s' msg 0 ∧
        s'.memory.nregions =
          (msg.fds.take msg.msg.memory.nregions).countP (fun fd => decide (fd > 0))) := by
  obtain ⟨hf, hr⟩ := hm
  have hN : VHOST_MEMORY_MAX_NREGIONS = 8 := rfl
  constructor
  · intro i0 fd0 src old hi0 hnum hfd0 hpos hfirst hsrc hold
    obtain ⟨s', h1, _, h2, h3⟩ :=
      _set_mem_table_loop_aborts msg i0 fd0 src old hfd0 hpos hnum hsrc
        msg.msg.memory.nregions 0
        { s with memory := { s.memory with nregions := 0 } }
        (Nat.zero_le _) (by omega) (by omega) (by omega) (by simp; omega) hold
        (fun j fd _ hj hjfd hjpos => by
          rcases Nat.lt_or_ge j msg.fd_num with h | h
          · exact h
          · exact absurd hjpos (hfirst j fd h hj hjfd))
        (by simp; omega)
    exact ⟨s', h1, by simpa using h2, h3⟩
  · intro hnone
    obtain ⟨s', h1, h2⟩ :=
      _set_mem_table_loop_accepts msg msg.msg.memory.nregions 0
        { s with memory := { s.memory with nregions := 0 } }
        (by omega) (by omega) (by simp; omega)
        (fun j fd _ hj hjfd hjpos => by
          rcases Nat.lt_or_ge j msg.fd_num with h | h
          · exact h
          · exact absurd hjpos (hnone j fd h (by omega) hjfd))
        (by simp; omega)
    exact ⟨s', h1, by simpa using h2⟩

/-- C16, witness: the two messages with two listed regions and one attached
descriptor, on the server with three regions: with 9 in the slot of entry 1
the handler stops at the assertion with count 1 and entry 1 in slot 1; with
-1 in that slot the message is accepted with count 1. -/
theorem set_mem_table_descriptor_mismatch_witness :
    (∃ s', _set_mem_table serverThreeRegions memTableShortStale =
        .aborted s' memTableShortStale ∧
      s'.memory.nregions = 1 ∧
      s'.memory.regions[1]? = some ⟨0x3000, 0x1000, 0x2000, 0⟩) ∧
    (∃ s', _set_mem_table serverThreeRegions memTableShortSkipped =
        .returned s' memTableShortSkipped 0 ∧
      s'.memory.nregions = 1) := by
  constructor
  · obtain ⟨s', h1, h2, h3⟩ :=
      (set_mem_table_descriptor_mismatch serverThreeRegions memTableShortStale
        (by decide) (by decide) (by decide)).1 1 9 ⟨0x3000, 0x1000, 0x2000⟩
        ⟨0xa000, 0x100, 0xa000, 0⟩ (by decide) (by decide) rfl (by decide)
        (fun j fd h1 h2 => by
          have : memTableShortStale.fd_num = 1 := rfl
          omega)
        rfl rfl
    exact ⟨s', h1, by rw [h2]; decide, h3⟩
  · obtain ⟨s', h1, h2⟩ :=
      (set_mem_table_descriptor_mismatch serverThreeRegions memTableShortSkipped
        (by decide) (by decide) (by decide)).2
        (fun j fd h1 h2 hj => by
          have e1 : memTableShortSkipped.fd_num = 1 := rfl
          have e2 : memTableShortSkipped.msg.memory.nregions = 2 := rfl
          have hj1 : j = 1 := by omega
          subst hj1
          obtain rfl : (-1 : Int) = fd := Option.some.inj hj
          decide)
    exact ⟨s', h1, by rw [h2]; decide⟩

end VhostUser
